import Mathlib

/-!
Verification of the keyset (cursor) pagination core of the notes-grpc service:
the pagination-token codec (`EncodePaginationToken` / `DecodePaginationToken`
in `internal/utils`), the filter normalization, keyset predicate and
next-cursor derivation in `Database.ListNotes` (`internal/database/database.go`),
and the request conversion `ProtoToListNotesFilter`.

Modelling conventions:
* Go strings are modelled as Lean `String` (sequences of Unicode scalar
  values); bytes are modelled as `Nat` values below 256.
* The backing store is modelled as a list of note rows together with the
  text ordering it uses: unquoted SQL identifiers are folded to lower case,
  `ORDER BY` returns a sorted permutation of the selected rows, and text
  comparison is codepoint-lexicographic.
* `time.Time` instants are modelled as `Nat` (nanoseconds); the
  `RFC3339Nano` rendering used for cursor keys is modelled by `timeFormat`,
  an injective textual encoding of the instant whose inverse `timeParse`
  models the cast the store applies to the cursor literal.
-/

namespace NotesGrpc

/-! ### Character and string primitives -/

/-- Boolean comparison of characters by code point. -/
def charLtB (a b : Char) : Bool := a.toNat < b.toNat

/-- Lexicographic comparison of character lists (models text comparison in
the backing store as well as Go byte-wise string comparison). -/
def charListLtB : List Char → List Char → Bool
  | [], [] => false
  | [], _ :: _ => true
  | _ :: _, [] => false
  | a :: as, b :: bs => charLtB a b || (a = b && charListLtB as bs)

/-- Lexicographic string comparison used by the store model. -/
def strLtB (a b : String) : Bool := charListLtB a.data b.data

/-- Boolean less-or-equal on strings. -/
def strLeB (a b : String) : Bool := strLtB a b || a = b

/-- ASCII lower-casing of one character, as `unicode.ToLower` acts on the
ASCII range (the sort-column names the code compares against are ASCII). -/
def lowerChar (c : Char) : Char :=
  if 65 ≤ c.toNat ∧ c.toNat ≤ 90 then Char.ofNat (c.toNat + 32) else c

/-- Models `strings.ToLower` on the ASCII fragment relevant to sort columns. -/
def lowerString (s : String) : String := ⟨s.data.map lowerChar⟩

/-! ### Base64 (URL-safe, raw / unpadded), as `base64.RawURLEncoding` -/

/-- The URL-safe base64 alphabet `A-Z a-z 0-9 - _`. -/
def b64char (i : Nat) : Char :=
  if i < 26 then Char.ofNat (65 + i)
  else if i < 52 then Char.ofNat (71 + i)
  else if i < 62 then Char.ofNat (i - 4)
  else if i = 62 then Char.ofNat 45
  else Char.ofNat 95

/-- Inverse of the alphabet map; `none` for characters outside the alphabet. -/
def b64index (c : Char) : Option Nat :=
  let n := c.toNat
  if 65 ≤ n ∧ n ≤ 90 then some (n - 65)
  else if 97 ≤ n ∧ n ≤ 122 then some (n - 71)
  else if 48 ≤ n ∧ n ≤ 57 then some (n + 4)
  else if n = 45 then some 62
  else if n = 95 then some 63
  else none

/-- Raw (unpadded) base64 encoding of a byte list, three bytes at a time. -/
def b64encodeList : List Nat → List Char
  | [] => []
  | [b0] => [b64char (b0 / 4), b64char (b0 % 4 * 16)]
  | [b0, b1] => [b64char (b0 / 4), b64char (b0 % 4 * 16 + b1 / 16), b64char (b1 % 16 * 4)]
  | b0 :: b1 :: b2 :: rest =>
      b64char (b0 / 4) :: b64char (b0 % 4 * 16 + b1 / 16) ::
        b64char (b1 % 16 * 4 + b2 / 64) :: b64char (b2 % 64) :: b64encodeList rest

/-- Raw (unpadded) base64 decoding.  A final group of one character is
invalid; as in Go's non-strict decoder, unused trailing bits are ignored. -/
def b64decodeList : List Char → Option (List Nat)
  | [] => some []
  | [_] => none
  | [c0, c1] =>
    match b64index c0, b64index c1 with
    | some i0, some i1 => some [i0 * 4 + i1 / 16]
    | _, _ => none
  | [c0, c1, c2] =>
    match b64index c0, b64index c1, b64index c2 with
    | some i0, some i1, some i2 => some [i0 * 4 + i1 / 16, i1 % 16 * 16 + i2 / 4]
    | _, _, _ => none
  | c0 :: c1 :: c2 :: c3 :: rest =>
    match b64index c0, b64index c1, b64index c2, b64index c3, b64decodeList rest with
    | some i0, some i1, some i2, some i3, some bs =>
        some ((i0 * 4 + i1 / 16) :: (i1 % 16 * 16 + i2 / 4) :: (i2 % 4 * 64 + i3) :: bs)
    | _, _, _, _, _ => none

theorem b64index_b64char : ∀ i, i < 64 → b64index (b64char i) = some i := by decide

theorem b64_roundtrip : ∀ bs : List Nat, (∀ b ∈ bs, b < 256) →
    b64decodeList (b64encodeList bs) = some bs := by
  intro bs
  induction bs using b64encodeList.induct with
  | case1 =>
    intro _
    rfl
  | case2 b0 =>
    intro h
    have hb0 := h b0 (by simp)
    simp only [b64encodeList, b64decodeList]
    rw [b64index_b64char _ (by omega), b64index_b64char _ (by omega)]
    simp only [Option.some.injEq, List.cons.injEq, and_true]
    omega
  | case3 b0 b1 =>
    intro h
    have hb0 := h b0 (by simp)
    have hb1 := h b1 (by simp)
    simp only [b64encodeList, b64decodeList]
    rw [b64index_b64char _ (by omega), b64index_b64char _ (by omega),
      b64index_b64char _ (by omega)]
    simp only [Option.some.injEq, List.cons.injEq, and_true]
    constructor
    · omega
    · omega
  | case4 b0 b1 b2 rest ih =>
    intro h
    have hb0 := h b0 (by simp)
    have hb1 := h b1 (by simp)
    have hb2 := h b2 (by simp)
    have hrest : ∀ b ∈ rest, b < 256 := by
      intro b hb
      exact h b (by simp [hb])
    simp only [b64encodeList, b64decodeList]
    rw [b64index_b64char _ (by omega), b64index_b64char _ (by omega),
      b64index_b64char _ (by omega), b64index_b64char _ (by omega), ih hrest]
    simp only [Option.some.injEq, List.cons.injEq]
    refine ⟨by omega, by omega, by omega, trivial⟩

theorem b64encodeList_ne_nil {bs : List Nat} (h : bs ≠ []) : b64encodeList bs ≠ [] := by
  match bs, h with
  | [b0], _ => simp [b64encodeList]
  | [b0, b1], _ => simp [b64encodeList]
  | b0 :: b1 :: b2 :: rest, _ => simp [b64encodeList]

/-! ### JSON rendering, as `json.Marshal` of the cursor struct

Go's `json.Marshal` escapes `"`, `\`, control characters, the HTML
characters `<`, `>`, `&` (as `\u00xx` / `<`-style escapes with
lower-case hex), and U+2028/U+2029; all other characters are emitted as
their UTF-8 bytes.  Struct fields are emitted in declaration order with
their JSON tags. -/

/-- Lower-case hexadecimal digit, as a byte. -/
def hexDigitChar (d : Nat) : Nat := if d < 10 then 48 + d else 87 + d

/-- UTF-8 encoding of one scalar value. -/
def utf8EncChar (c : Char) : List Nat :=
  let n := c.toNat
  if n < 128 then [n]
  else if n < 2048 then [192 + n / 64, 128 + n % 64]
  else if n < 65536 then [224 + n / 4096, 128 + n / 64 % 64, 128 + n % 64]
  else [240 + n / 262144, 128 + n / 4096 % 64, 128 + n / 64 % 64, 128 + n % 64]

/-- The bytes `json.Marshal` emits for one character of a string value. -/
def jsonEscapeChar (c : Char) : List Nat :=
  let n := c.toNat
  if n = 34 then [92, 34]
  else if n = 92 then [92, 92]
  else if n = 10 then [92, 110]
  else if n = 13 then [92, 114]
  else if n = 9 then [92, 116]
  else if n < 32 ∨ n = 60 ∨ n = 62 ∨ n = 38 then
    [92, 117, 48, 48, hexDigitChar (n / 16), hexDigitChar (n % 16)]
  else if n = 8232 ∨ n = 8233 then [92, 117, 50, 48, 50, hexDigitChar (n % 16)]
  else utf8EncChar c

/-- Escaped bytes of a whole string body. -/
def escBytes : List Char → List Nat
  | [] => []
  | c :: cs => jsonEscapeChar c ++ escBytes cs


/-- The pagination cursor of `internal/utils` (`NotesPagination`), with JSON
tags `key`, `key_type`, `id`, `sort_by`, `direction` in declaration order. -/
structure NotesPagination where
  Key : String
  KeyType : String
  ID : String
  SortBy : String
  Direction : String
deriving DecidableEq

/-- One `"tag":"value"` member of the marshalled cursor object, followed by
the given continuation bytes: quote, escaped tag, quote, colon, quote,
escaped value, quote, then the continuation. -/
def renderField (k v : String) (tail : List Nat) : List Nat :=
  34 :: (escBytes k.data ++ (34 :: (58 :: (34 :: (escBytes v.data ++ (34 :: tail))))))

/-- The bytes of `json.Marshal(NotesPagination)`: members in struct order,
separated by commas, between braces. -/
def renderCursor (c : NotesPagination) : List Nat :=
  123 :: renderField "key" c.Key
    (44 :: renderField "key_type" c.KeyType
      (44 :: renderField "id" c.ID
        (44 :: renderField "sort_by" c.SortBy
          (44 :: renderField "direction" c.Direction [125]))))

/-! ### JSON parsing, as `json.Unmarshal` into the cursor struct

The parser works on bytes.  String contents follow Go's decoder: the
standard escapes, `\uXXXX` escapes with surrogate-pair handling, raw UTF-8
sequences, and rejection of raw control bytes.  Only the exact object
shape `json.Marshal` produces is modelled: an object whose member values
are strings, matched against the struct tags (unknown members are ignored,
later duplicates win).  Inputs only a forged token can contain are
simplified: interior whitespace, case-insensitive member matching and
non-string member values are not modelled, and invalid UTF-8 or unpaired
surrogate escapes — which Go replaces by U+FFFD — are rejected. -/

/-- Value of a hexadecimal digit byte. -/
def hexVal (b : Nat) : Option Nat :=
  if 48 ≤ b ∧ b ≤ 57 then some (b - 48)
  else if 97 ≤ b ∧ b ≤ 102 then some (b - 87)
  else if 65 ≤ b ∧ b ≤ 70 then some (b - 55)
  else none

/-- Prepends a decoded character to a string-parse result. -/
def consStr (c : Char) : Option (List Char × List Nat) → Option (List Char × List Nat)
  | some (cs, rest) => some (c :: cs, rest)
  | none => none

/-- Decodes one unit of a JSON string body: `some (none, rest)` at the
closing quote, `some (some c, rest)` for one decoded character, `none` on
malformed input.  Surrogate pairs are resolved by lookahead, so the
function is not recursive. -/
def decodeUnit : List Nat → Option (Option Char × List Nat)
  | [] => none
  | b :: rest =>
    if b = 34 then some (none, rest)
    else if b = 92 then
      match rest with
      | [] => none
      | e :: r1 =>
        if e = 34 then some (some (Char.ofNat 34), r1)
        else if e = 92 then some (some (Char.ofNat 92), r1)
        else if e = 47 then some (some (Char.ofNat 47), r1)
        else if e = 98 then some (some (Char.ofNat 8), r1)
        else if e = 102 then some (some (Char.ofNat 12), r1)
        else if e = 110 then some (some (Char.ofNat 10), r1)
        else if e = 114 then some (some (Char.ofNat 13), r1)
        else if e = 116 then some (some (Char.ofNat 9), r1)
        else if e = 117 then
          match r1 with
          | h1 :: h2 :: h3 :: h4 :: r2 =>
            match hexVal h1, hexVal h2, hexVal h3, hexVal h4 with
            | some d1, some d2, some d3, some d4 =>
              let v := d1 * 4096 + d2 * 256 + d3 * 16 + d4
              if 55296 ≤ v ∧ v < 56320 then
                match r2 with
                | 92 :: 117 :: g1 :: g2 :: g3 :: g4 :: r3 =>
                  match hexVal g1, hexVal g2, hexVal g3, hexVal g4 with
                  | some e1, some e2, some e3, some e4 =>
                    let w := e1 * 4096 + e2 * 256 + e3 * 16 + e4
                    if 56320 ≤ w ∧ w < 57344 then
                      some (some (Char.ofNat (65536 + (v - 55296) * 1024 + (w - 56320))), r3)
                    else none
                  | _, _, _, _ => none
                | _ => none
              else if 56320 ≤ v ∧ v < 57344 then none
              else some (some (Char.ofNat v), r2)
            | _, _, _, _ => none
          | _ => none
        else none
    else if b < 32 then none
    else if b < 128 then some (some (Char.ofNat b), rest)
    else if 194 ≤ b ∧ b ≤ 223 then
      match rest with
      | b1 :: r1 =>
        if 128 ≤ b1 ∧ b1 ≤ 191 then
          some (some (Char.ofNat ((b - 192) * 64 + (b1 - 128))), r1)
        else none
      | [] => none
    else if 224 ≤ b ∧ b ≤ 239 then
      match rest with
      | b1 :: b2 :: r1 =>
        if (128 ≤ b1 ∧ b1 ≤ 191) ∧ (128 ≤ b2 ∧ b2 ≤ 191) ∧
            (b = 224 → 160 ≤ b1) ∧ (b = 237 → b1 < 160) then
          some (some (Char.ofNat ((b - 224) * 4096 + (b1 - 128) * 64 + (b2 - 128))), r1)
        else none
      | _ => none
    else if 240 ≤ b ∧ b ≤ 244 then
      match rest with
      | b1 :: b2 :: b3 :: r1 =>
        if (128 ≤ b1 ∧ b1 ≤ 191) ∧ (128 ≤ b2 ∧ b2 ≤ 191) ∧ (128 ≤ b3 ∧ b3 ≤ 191) ∧
            (b = 240 → 144 ≤ b1) ∧ (b = 244 → b1 < 144) then
          some
            (some (Char.ofNat ((b - 240) * 262144 + (b1 - 128) * 4096 + (b2 - 128) * 64 + (b3 - 128))),
              r1)
        else none
      | _ => none
    else none

/-- Parses a JSON string body (after the opening quote) up to and including
the closing quote, returning the decoded characters and the remaining
bytes.  The fuel bounds the number of decoded characters; one more than
the input length always suffices, since every unit consumes a byte. -/
def parseJStringF : Nat → List Nat → Option (List Char × List Nat)
  | 0, _ => none
  | fuel+1, bs =>
    match decodeUnit bs with
    | none => none
    | some (none, rest) => some ([], rest)
    | some (some c, rest) => consStr c (parseJStringF fuel rest)

/-- Assigns a decoded member to the cursor field whose JSON tag matches;
unknown members are ignored. -/
def setField (k v : String) (p : NotesPagination) : NotesPagination :=
  if k = "key" then { p with Key := v }
  else if k = "key_type" then { p with KeyType := v }
  else if k = "id" then { p with ID := v }
  else if k = "sort_by" then { p with SortBy := v }
  else if k = "direction" then { p with Direction := v }
  else p

/-- The zero value of the cursor struct. -/
def emptyCursor : NotesPagination := ⟨"", "", "", "", ""⟩

/-- Parses the members of the cursor object after the opening brace:
`"tag":"value"` pairs separated by commas, ending at the closing brace. -/
def parseFields : Nat → List Nat → NotesPagination → Option (NotesPagination × List Nat)
  | 0, _, _ => none
  | fuel+1, bs, p =>
    match bs with
    | 34 :: r0 =>
      match parseJStringF (r0.length + 1) r0 with
      | some (kcs, r1) =>
        match r1 with
        | 58 :: 34 :: r3 =>
          match parseJStringF (r3.length + 1) r3 with
          | some (vcs, r4) =>
            match r4 with
            | 44 :: r5 => parseFields fuel r5 (setField ⟨kcs⟩ ⟨vcs⟩ p)
            | 125 :: r5 => some (setField ⟨kcs⟩ ⟨vcs⟩ p, r5)
            | _ => none
          | none => none
        | _ => none
      | none => none
    | _ => none

/-- Parses a marshalled cursor object, requiring the input to be fully
consumed (as `json.Unmarshal` rejects trailing data). -/
def parseCursorBytes (bs : List Nat) : Option NotesPagination :=
  match bs with
  | 123 :: r0 =>
    match r0 with
    | [125] => some emptyCursor
    | _ =>
      match parseFields r0.length r0 emptyCursor with
      | some (p, rest) => if rest = [] then some p else none
      | none => none
  | _ => none

/-! ### The pagination-token codec (`internal/utils`) -/

/-- `EncodePaginationToken`: `json.Marshal` then raw URL-safe base64. -/
def EncodePaginationToken (c : NotesPagination) : String :=
  ⟨b64encodeList (renderCursor c)⟩

/-- `DecodePaginationToken`: the empty token decodes to the zero cursor with
no error; otherwise base64-decode, unmarshal, and reject a cursor with any
empty field. -/
def DecodePaginationToken (token : String) : Except String NotesPagination :=
  if token = "" then .ok emptyCursor
  else
    match b64decodeList token.data with
    | none => .error "illegal base64 data"
    | some bs =>
      match parseCursorBytes bs with
      | none => .error "json unmarshal error"
      | some p =>
        if p.Key = "" ∨ p.SortBy = "" ∨ p.Direction = "" ∨ p.ID = "" ∨ p.KeyType = "" then
          .error "invalid pagination token"
        else .ok p

/-! ### Sort-key value formatting

`ListNotes` renders the last row's sort value into the cursor key:
`strconv.FormatBool` for booleans, the raw title for text, and
`t.UTC().Format(time.RFC3339Nano)` for timestamps.  The timestamp rendering
is modelled by `timeFormat`, an injective decimal encoding of the instant;
`timeParse`/`parseBoolKey` model the cast the store applies when the key
literal is compared against a typed column. -/

/-- Decimal digit character. -/
def digitByteChar (d : Nat) : Char := Char.ofNat (48 + d)

/-- Decimal digits of `n`, least significant first (`fuel` bounds the
recursion; `fuel = n` is always enough). -/
def revDecimalDigits : Nat → Nat → List Char
  | 0, _ => []
  | fuel+1, n => if n = 0 then [] else digitByteChar (n % 10) :: revDecimalDigits fuel (n / 10)

/-- Textual form of a timestamp instant (stands in for `RFC3339Nano`). -/
def timeFormat (t : Nat) : String := if t = 0 then "0" else ⟨(revDecimalDigits t t).reverse⟩

/-- Value of a decimal digit character. -/
def digitValue (c : Char) : Option Nat :=
  if 48 ≤ c.toNat ∧ c.toNat ≤ 57 then some (c.toNat - 48) else none

/-- Left fold of decimal digits. -/
def parseDecAux : List Char → Nat → Option Nat
  | [], acc => some acc
  | c :: cs, acc =>
    match digitValue c with
    | some d => parseDecAux cs (acc * 10 + d)
    | none => none

/-- Inverse of `timeFormat`: the store's cast of a timestamp literal. -/
def timeParse (s : String) : Option Nat :=
  if s = "" then none else parseDecAux s.data 0

/-- `strconv.FormatBool`. -/
def formatBool (b : Bool) : String := if b then "true" else "false"

/-! ### The note row model and list filter (`internal/models`) -/

/-- A row of the `notes` table (the columns `ListNotes` selects, orders and
compares; the author join only annotates the row and is omitted). -/
structure Note where
  id : String
  projectId : Option String
  authorId : String
  title : String
  content : Option String
  isPinned : Bool
  createdAt : Nat
  updatedAt : Nat
deriving DecidableEq

/-- `models.ListNotesFilter`. -/
structure ListNotesFilter where
  projectId : Option String
  userId : Option String
  query : Option String
  sortBy : String
  sortDesc : Bool
  pageSize : Int
  pageToken : String
deriving DecidableEq

/-! ### Filter normalization and query construction (`ListNotes`) -/

/-- Page-size clamping at the top of `ListNotes`: below 10 becomes 10,
above 100 becomes 100. -/
def clampPageSize (n : Int) : Nat :=
  if n < 10 then 10 else if n > 100 then 100 else n.toNat

/-- The sort-column whitelist of the `switch` in `ListNotes`. -/
def sortWhitelist : List String := ["updated_at", "created_at", "title", "is_pinned"]

/-- The sort-column normalization: the `switch` compares
`strings.ToLower(filter.SortBy)` against the whitelist but keeps the
original spelling on a match; otherwise `updated_at`. -/
def normalizeSortBy (s : String) : String :=
  if lowerString s ∈ sortWhitelist then s else "updated_at"

/-- Direction selection: `dir := "DESC"; if !filter.SortDesc { dir = "ASC" }`. -/
def dirOf (sortDesc : Bool) : String := if sortDesc then "DESC" else "ASC"

/-- The `ORDER BY` fragment `fmt.Sprintf("n.%s %s, n.id %s", sortBy, dir, dir)`. -/
def orderByClause (sortBy dir : String) : String :=
  "n." ++ sortBy ++ " " ++ dir ++ ", n.id " ++ dir

/-- The cursor comparison operator: `op := "<"; if dir == "ASC" { op = ">" }`. -/
def cursorOp (dir : String) : String := if dir = "ASC" then ">" else "<"

/-- The keyset `WHERE` fragment
`fmt.Sprintf("(n.%s %s ? OR (n.%s = ? AND n.id %s ?))", sortBy, op, sortBy, op)`. -/
def cursorWhereSQL (sortBy op : String) : String :=
  "(n." ++ sortBy ++ " " ++ op ++ " ? OR (n." ++ sortBy ++ " = ? AND n.id " ++ op ++ " ?))"

/-- The positional arguments bound to the keyset fragment: `c.Key, c.Key, c.ID`. -/
def cursorArgs (c : NotesPagination) : List String := [c.Key, c.Key, c.ID]

/-! ### Store semantics: typed sort values and row selection -/

/-- A typed value of a sortable column. -/
inductive SortVal where
  | timeV : Nat → SortVal
  | strV : String → SortVal
  | boolV : Bool → SortVal
deriving DecidableEq

/-- The store's strict order on column values (`false < true` for booleans,
codepoint order for text). -/
def ltVal : SortVal → SortVal → Bool
  | .timeV a, .timeV b => a < b
  | .strV a, .strV b => strLtB a b
  | .boolV a, .boolV b => !a && b
  | _, _ => false

/-- The value a row has in a (lower-cased, resolved) sort column. -/
def colValue (col : String) (n : Note) : SortVal :=
  if col = "updated_at" then .timeV n.updatedAt
  else if col = "created_at" then .timeV n.createdAt
  else if col = "title" then .strV n.title
  else if col = "is_pinned" then .boolV n.isPinned
  else .timeV n.updatedAt

/-- The store's cast of the cursor key literal to the compared column's
type; failure models the SQL error a malformed literal raises. -/
def parseKey (col : String) (key : String) : Option SortVal :=
  if col = "title" then some (.strV key)
  else if col = "is_pinned" then
    (if key = "true" then some (.boolV true)
     else if key = "false" then some (.boolV false)
     else none)
  else (timeParse key).map SortVal.timeV

/-- Row comparison realizing `ORDER BY n.<col> <dir>, n.id <dir>`: `a`
comes no later than `b` in the output. -/
def rowLE (col : String) (desc : Bool) (a b : Note) : Bool :=
  if desc then
    ltVal (colValue col b) (colValue col a) ||
      (colValue col a = colValue col b && strLeB b.id a.id)
  else
    ltVal (colValue col a) (colValue col b) ||
      (colValue col a = colValue col b && strLeB a.id b.id)

/-- Strict version of `rowLE`: `a` comes strictly before `b` in the output. -/
def rowLT (col : String) (desc : Bool) (a b : Note) : Bool :=
  if desc then
    ltVal (colValue col b) (colValue col a) ||
      (colValue col a = colValue col b && strLtB b.id a.id)
  else
    ltVal (colValue col a) (colValue col b) ||
      (colValue col a = colValue col b && strLtB a.id b.id)

/-- The keyset predicate `(n.<col> <op> $key OR (n.<col> = $key AND
n.id <op> $id))` evaluated on a row, with the key already cast to `k`. -/
def cursorAfter (col dir : String) (k : SortVal) (cid : String) (n : Note) : Bool :=
  if dir = "ASC" then
    ltVal k (colValue col n) || (colValue col n = k && strLtB cid n.id)
  else
    ltVal (colValue col n) k || (colValue col n = k && strLtB n.id cid)

/-- The non-cursor `WHERE` clauses: project scope, author scope, and — when
a non-empty query is present — the store's full-text match, which is an
external capability taken as a parameter `fts`. -/
def matchesFilter (fts : String → Note → Bool) (f : ListNotesFilter) (n : Note) : Bool :=
  (match f.projectId with
   | some p => n.projectId = some p
   | none => true) &&
  (match f.userId with
   | some u => n.authorId = u
   | none => true) &&
  (match f.query with
   | some q => if q = "" then true else fts q n
   | none => true)

/-- The store's `ORDER BY`: a sorted permutation of the selected rows. -/
def sortRows (col : String) (desc : Bool) (l : List Note) : List Note :=
  List.insertionSort (fun a b => rowLE col desc a b = true) l

/-! ### Next-cursor derivation and the listing operation -/

/-- The `switch sortBy` deriving the next cursor from the last row of a
full page.  The match is on the exact (case-preserved) `sortBy` string;
the `default` branch falls back to the `updated_at` value. -/
def deriveCursor (sortBy dir : String) (last : Note) : NotesPagination :=
  if sortBy = "updated_at" then ⟨timeFormat last.updatedAt, "time", last.id, sortBy, dir⟩
  else if sortBy = "created_at" then ⟨timeFormat last.createdAt, "time", last.id, sortBy, dir⟩
  else if sortBy = "title" then ⟨last.title, "string", last.id, sortBy, dir⟩
  else if sortBy = "is_pinned" then ⟨formatBool last.isPinned, "bool", last.id, sortBy, dir⟩
  else ⟨timeFormat last.updatedAt, "time", last.id, sortBy, dir⟩

/-- Takes the page (`LIMIT`) and computes the next-page token: non-empty
only when the page is exactly full, in which case the cursor derived from
the last row is encoded (`EncodePaginationToken` never fails). -/
def buildPage (pageSize : Nat) (sortBy dir : String) (sorted : List Note) :
    List Note × String :=
  let notes := sorted.take pageSize
  let next :=
    if notes.length = pageSize then
      match notes.getLast? with
      | some last => EncodePaginationToken (deriveCursor sortBy dir last)
      | none => ""
    else ""
  (notes, next)

/-- `Database.ListNotes` over a store modelled by its rows and full-text
capability: clamp the page size, normalize the sort column, pick the
direction, apply the scope clauses, silently drop an undecodable page
token, apply the keyset predicate of a decoded cursor (a key literal the
column type cannot parse makes the query fail), order, page, and derive
the next token. -/
def ListNotes (fts : String → Note → Bool) (rows : List Note) (f0 : ListNotesFilter) :
    Except String (List Note × String) :=
  let pageSize := clampPageSize f0.pageSize
  let sortBy := normalizeSortBy f0.sortBy
  let dir := dirOf f0.sortDesc
  let effCol := lowerString sortBy
  let base := rows.filter (matchesFilter fts f0)
  let cur : Option NotesPagination :=
    if f0.pageToken = "" then none
    else
      match DecodePaginationToken f0.pageToken with
      | .ok c => some c
      | .error _ => none
  match cur with
  | none => .ok (buildPage pageSize sortBy dir (sortRows effCol f0.sortDesc base))
  | some c =>
    match parseKey effCol c.Key with
    | none => .error "query failed"
    | some k =>
      .ok (buildPage pageSize sortBy dir
        (sortRows effCol f0.sortDesc (base.filter (cursorAfter effCol dir k c.ID))))

/-- Drives the listing to exhaustion: call, and while the returned token is
non-empty feed it back.  `none` when a call fails or the fuel runs out. -/
def collectPages (fts : String → Note → Bool) (rows : List Note) (f : ListNotesFilter) :
    Nat → String → Option (List Note)
  | 0, _ => none
  | fuel+1, tok =>
    match ListNotes fts rows { f with pageToken := tok } with
    | .error _ => none
    | .ok (notes, next) =>
      if next = "" then some notes
      else
        match collectPages fts rows f fuel next with
        | some more => some (notes ++ more)
        | none => none

/-! ### Request conversion (`ProtoToListNotesFilter`) -/

/-- `pb.ListNotesRequest`: proto3 optional scalars are pointers. -/
structure ListNotesRequest where
  projectId : Option String
  userId : Option String
  query : Option String
  sortBy : Option String
  sortDesc : Option Bool
  pageSize : Int
  pageToken : String
deriving DecidableEq

/-- `utils.ProtoToListNotesFilter`: copy scopes, default the sort column to
`updated_at` when absent, copy the descending flag only when present
(absent means `false`), and clamp the page size to [10,100]. -/
def ProtoToListNotesFilter (req : ListNotesRequest) : ListNotesFilter :=
  let sortBy :=
    match req.sortBy with
    | some s => s
    | none => "updated_at"
  let sortDesc :=
    match req.sortDesc with
    | some b => b
    | none => false
  let ps :=
    if req.pageSize < 10 then 10
    else if req.pageSize > 100 then 100
    else req.pageSize
  { projectId := req.projectId, userId := req.userId, query := req.query,
    sortBy := sortBy, sortDesc := sortDesc, pageSize := ps, pageToken := req.pageToken }

/-! ### Spec-side formulations (for the refinement statements) -/

/-- The spec's ordering contract, read off its words: rows are ordered by
the pair (sort value, row id) lexicographically, in the chosen direction. -/
def specPairLE (v1 : SortVal) (i1 : String) (v2 : SortVal) (i2 : String) : Prop :=
  ltVal v1 v2 = true ∨ (v1 = v2 ∧ (strLtB i1 i2 = true ∨ i1 = i2))

/-- The spec's cursor contract, read off its words: for descending
direction a row qualifies when `sort_column < cursor.value` or
(`sort_column = cursor.value` and `row_id < cursor.id`); for ascending,
`<` becomes `>`. -/
def specAfterCursor (desc : Bool) (v k : SortVal) (rid cid : String) : Prop :=
  if desc then ltVal v k = true ∨ (v = k ∧ strLtB rid cid = true)
  else ltVal k v = true ∨ (v = k ∧ strLtB cid rid = true)

/-! ### Concrete sample data for counterexamples and witnesses -/

/-- A full-text capability that matches everything (the sample filters
carry no query, so it is never consulted). -/
def sampleFts : String → Note → Bool := fun _ _ => true

/-- Two-digit zero-padded rendering of a small index. -/
def pad2 (i : Nat) : String := (if i < 10 then "0" else "") ++ toString i

/-- Sample row `i`: id `n<i>`, title `a<i>`, timestamps `i`. -/
def sampleRow (i : Nat) : Note :=
  { id := "n" ++ pad2 i, projectId := none, authorId := "x",
    title := "a" ++ pad2 i, content := none, isPinned := false,
    createdAt := i, updatedAt := i }

/-- The first `n` sample rows. -/
def sampleRows (n : Nat) : List Note := (List.range n).map (fun i => sampleRow (i + 1))

/-- The filter of the C1 failing input: sort column `Title` (whitelisted
case-insensitively, but spelled with a capital letter), ascending,
page size 10. -/
def c1Filter : ListNotesFilter :=
  { projectId := none, userId := none, query := none,
    sortBy := "Title", sortDesc := false, pageSize := 10, pageToken := "" }

/-- The first page the code returns for `c1Filter` over `sampleRows 11`:
rows 1 through 10 in title order. -/
def c1Page1 : List Note := (List.range 10).map (fun i => sampleRow (i + 1))

/-- The token the first call returns: base64url of
`{"key":"10","key_type":"time","id":"n10","sort_by":"Title","direction":"ASC"}` —
the key records row n10's `updated_at` value although the query sorts by
title. -/
def c1Token : String :=
  "eyJrZXkiOiIxMCIsImtleV90eXBlIjoidGltZSIsImlkIjoibjEwIiwic29ydF9ieSI6IlRpdGxlIiwiZGlyZWN0aW9uIjoiQVNDIn0"

/-- A listing request with every optional field absent (notably the
descending flag) and a page size inside the clamp range. -/
def c7Request : ListNotesRequest :=
  { projectId := none, userId := none, query := none,
    sortBy := none, sortDesc := none, pageSize := 20, pageToken := "" }

/-- A canonical descending `updated_at` listing with a page size below the
clamp floor. -/
def c8Filter : ListNotesFilter :=
  { projectId := none, userId := none, query := none,
    sortBy := "updated_at", sortDesc := true, pageSize := 3, pageToken := "" }

/-- The full first page for `c8Filter` over `sampleRows 10`: rows 10 down
to 1 by `updated_at` descending. -/
def c8Page : List Note := (List.range 10).map (fun i => sampleRow (10 - i))

/-- The token derived from the last row of `c8Page`: base64url of
`{"key":"1","key_type":"time","id":"n01","sort_by":"updated_at","direction":"DESC"}`. -/
def c8Token : String :=
  "eyJrZXkiOiIxIiwia2V5X3R5cGUiOiJ0aW1lIiwiaWQiOiJuMDEiLCJzb3J0X2J5IjoidXBkYXRlZF9hdCIsImRpcmVjdGlvbiI6IkRFU0MifQ"

/-! ## Theorems -/

/-! ### Codec support lemmas -/

theorem char_valid_nat (c : Char) :
    c.toNat < 55296 ∨ (57343 < c.toNat ∧ c.toNat < 1114112) := by
  have h := c.valid
  simpa [UInt32.isValidChar, Nat.isValidChar, Char.toNat] using h

theorem hexVal_hexDigitChar : ∀ d, d < 16 → hexVal (hexDigitChar d) = some d := by decide

theorem parseJStringF_step {bs : List Nat} {c : Char} {rest : List Nat} (fuel : Nat)
    (h : decodeUnit bs = some (some c, rest)) :
    parseJStringF (fuel + 1) bs = consStr c (parseJStringF fuel rest) := by
  simp [parseJStringF, h]

theorem parseJStringF_close {bs rest : List Nat} (fuel : Nat)
    (h : decodeUnit bs = some (none, rest)) :
    parseJStringF (fuel + 1) bs = some ([], rest) := by
  simp [parseJStringF, h]

theorem decodeUnit_quote (rest : List Nat) : decodeUnit (34 :: rest) = some (none, rest) := by
  simp [decodeUnit]

theorem decodeUnit_ascii {b : Nat} (rest : List Nat) (h32 : 32 ≤ b) (h128 : b < 128)
    (h34 : b ≠ 34) (h92 : b ≠ 92) :
    decodeUnit (b :: rest) = some (some (Char.ofNat b), rest) := by
  simp only [decodeUnit]
  rw [if_neg h34, if_neg h92, if_neg (by omega : ¬b < 32), if_pos h128]

theorem decodeUnit_twoByte {b b1 : Nat} (rest : List Nat) (hb : 194 ≤ b) (hb' : b ≤ 223)
    (h1 : 128 ≤ b1) (h1' : b1 ≤ 191) :
    decodeUnit (b :: b1 :: rest) =
      some (some (Char.ofNat ((b - 192) * 64 + (b1 - 128))), rest) := by
  simp only [decodeUnit]
  rw [if_neg (by omega : ¬b = 34), if_neg (by omega : ¬b = 92), if_neg (by omega : ¬b < 32),
    if_neg (by omega : ¬b < 128), if_pos (⟨hb, hb'⟩ : 194 ≤ b ∧ b ≤ 223),
    if_pos (⟨h1, h1'⟩ : 128 ≤ b1 ∧ b1 ≤ 191)]

theorem decodeUnit_threeByte {b b1 b2 : Nat} (rest : List Nat) (hb : 224 ≤ b) (hb' : b ≤ 239)
    (h1 : 128 ≤ b1) (h1' : b1 ≤ 191) (h2 : 128 ≤ b2) (h2' : b2 ≤ 191)
    (hE0 : b = 224 → 160 ≤ b1) (hED : b = 237 → b1 < 160) :
    decodeUnit (b :: b1 :: b2 :: rest) =
      some (some (Char.ofNat ((b - 224) * 4096 + (b1 - 128) * 64 + (b2 - 128))), rest) := by
  simp only [decodeUnit]
  rw [if_neg (by omega : ¬b = 34), if_neg (by omega : ¬b = 92), if_neg (by omega : ¬b < 32),
    if_neg (by omega : ¬b < 128), if_neg (by omega : ¬(194 ≤ b ∧ b ≤ 223)),
    if_pos (⟨hb, hb'⟩ : 224 ≤ b ∧ b ≤ 239),
    if_pos (⟨⟨h1, h1'⟩, ⟨h2, h2'⟩, hE0, hED⟩ :
      (128 ≤ b1 ∧ b1 ≤ 191) ∧ (128 ≤ b2 ∧ b2 ≤ 191) ∧ (b = 224 → 160 ≤ b1) ∧
        (b = 237 → b1 < 160))]

theorem decodeUnit_fourByte {b b1 b2 b3 : Nat} (rest : List Nat) (hb : 240 ≤ b) (hb' : b ≤ 244)
    (h1 : 128 ≤ b1) (h1' : b1 ≤ 191) (h2 : 128 ≤ b2) (h2' : b2 ≤ 191)
    (h3 : 128 ≤ b3) (h3' : b3 ≤ 191) (hF0 : b = 240 → 144 ≤ b1) (hF4 : b = 244 → b1 < 144) :
    decodeUnit (b :: b1 :: b2 :: b3 :: rest) =
      some (some
        (Char.ofNat ((b - 240) * 262144 + (b1 - 128) * 4096 + (b2 - 128) * 64 + (b3 - 128))),
        rest) := by
  simp only [decodeUnit]
  rw [if_neg (by omega : ¬b = 34), if_neg (by omega : ¬b = 92), if_neg (by omega : ¬b < 32),
    if_neg (by omega : ¬b < 128), if_neg (by omega : ¬(194 ≤ b ∧ b ≤ 223)),
    if_neg (by omega : ¬(224 ≤ b ∧ b ≤ 239)), if_pos (⟨hb, hb'⟩ : 240 ≤ b ∧ b ≤ 244),
    if_pos (⟨⟨h1, h1'⟩, ⟨h2, h2'⟩, ⟨h3, h3'⟩, hF0, hF4⟩ :
      (128 ≤ b1 ∧ b1 ≤ 191) ∧ (128 ≤ b2 ∧ b2 ≤ 191) ∧ (128 ≤ b3 ∧ b3 ≤ 191) ∧
        (b = 240 → 144 ≤ b1) ∧ (b = 244 → b1 < 144))]

theorem decodeUnit_uEscape {h1 h2 h3 h4 : Nat} (d1 d2 d3 d4 : Nat) (rest : List Nat)
    (e1 : hexVal h1 = some d1) (e2 : hexVal h2 = some d2) (e3 : hexVal h3 = some d3)
    (e4 : hexVal h4 = some d4)
    (hlo : ¬(55296 ≤ d1 * 4096 + d2 * 256 + d3 * 16 + d4 ∧
      d1 * 4096 + d2 * 256 + d3 * 16 + d4 < 56320))
    (hhi : ¬(56320 ≤ d1 * 4096 + d2 * 256 + d3 * 16 + d4 ∧
      d1 * 4096 + d2 * 256 + d3 * 16 + d4 < 57344)) :
    decodeUnit (92 :: 117 :: h1 :: h2 :: h3 :: h4 :: rest) =
      some (some (Char.ofNat (d1 * 4096 + d2 * 256 + d3 * 16 + d4)), rest) := by
  simp only [decodeUnit]
  rw [e1, e2, e3, e4]
  simp only [if_neg hlo, if_neg hhi]
  simp

theorem ofNat_eq (c : Char) {n : Nat} (h : c.toNat = n) : Char.ofNat n = c := by
  rw [← h, Char.ofNat_toNat]

theorem decodeUnit_escChar (c : Char) (rest : List Nat) :
    decodeUnit (jsonEscapeChar c ++ rest) = some (some c, rest) := by
  have hv := char_valid_nat c
  by_cases h34 : c.toNat = 34
  · rw [show jsonEscapeChar c = [92, 34] from by simp [jsonEscapeChar, h34],
      (ofNat_eq c h34).symm]
    simp [decodeUnit]
  by_cases h92 : c.toNat = 92
  · rw [show jsonEscapeChar c = [92, 92] from by simp [jsonEscapeChar, h34, h92],
      (ofNat_eq c h92).symm]
    simp [decodeUnit]
  by_cases h10 : c.toNat = 10
  · rw [show jsonEscapeChar c = [92, 110] from by simp [jsonEscapeChar, h34, h92, h10],
      (ofNat_eq c h10).symm]
    simp [decodeUnit]
  by_cases h13 : c.toNat = 13
  · rw [show jsonEscapeChar c = [92, 114] from by
      simp [jsonEscapeChar, h34, h92, h10, h13], (ofNat_eq c h13).symm]
    simp [decodeUnit]
  by_cases h9 : c.toNat = 9
  · rw [show jsonEscapeChar c = [92, 116] from by
      simp [jsonEscapeChar, h34, h92, h10, h13, h9], (ofNat_eq c h9).symm]
    simp [decodeUnit]
  by_cases hctrl : c.toNat < 32 ∨ c.toNat = 60 ∨ c.toNat = 62 ∨ c.toNat = 38
  · rw [show jsonEscapeChar c =
        [92, 117, 48, 48, hexDigitChar (c.toNat / 16), hexDigitChar (c.toNat % 16)] from by
      simp only [jsonEscapeChar]
      rw [if_neg h34, if_neg h92, if_neg h10, if_neg h13, if_neg h9, if_pos hctrl]]
    rw [List.cons_append, List.cons_append, List.cons_append, List.cons_append,
      List.cons_append, List.cons_append, List.nil_append,
      decodeUnit_uEscape 0 0 (c.toNat / 16) (c.toNat % 16) rest (by decide) (by decide)
        (hexVal_hexDigitChar (c.toNat / 16) (by omega))
        (hexVal_hexDigitChar (c.toNat % 16) (by omega)) (by omega) (by omega)]
    rw [show 0 * 4096 + 0 * 256 + c.toNat / 16 * 16 + c.toNat % 16 = c.toNat from by omega,
      Char.ofNat_toNat]
  by_cases h2028 : c.toNat = 8232 ∨ c.toNat = 8233
  · rw [show jsonEscapeChar c = [92, 117, 50, 48, 50, hexDigitChar (c.toNat % 16)] from by
      simp only [jsonEscapeChar]
      rw [if_neg h34, if_neg h92, if_neg h10, if_neg h13, if_neg h9, if_neg hctrl,
        if_pos h2028]]
    rw [List.cons_append, List.cons_append, List.cons_append, List.cons_append,
      List.cons_append, List.cons_append, List.nil_append,
      decodeUnit_uEscape 2 0 2 (c.toNat % 16) rest (by decide) (by decide) (by decide)
        (hexVal_hexDigitChar (c.toNat % 16) (by omega)) (by omega) (by omega)]
    rw [show 2 * 4096 + 0 * 256 + 2 * 16 + c.toNat % 16 = c.toNat from by omega,
      Char.ofNat_toNat]
  have hesc : jsonEscapeChar c = utf8EncChar c := by
    simp only [jsonEscapeChar]
    rw [if_neg h34, if_neg h92, if_neg h10, if_neg h13, if_neg h9, if_neg hctrl,
      if_neg h2028]
  rw [hesc]
  by_cases ha : c.toNat < 128
  · rw [show utf8EncChar c = [c.toNat] from by simp [utf8EncChar, ha]]
    rw [List.cons_append, List.nil_append,
      decodeUnit_ascii rest (by omega) ha h34 h92, Char.ofNat_toNat]
  by_cases hb : c.toNat < 2048
  · rw [show utf8EncChar c = [192 + c.toNat / 64, 128 + c.toNat % 64] from by
      simp [utf8EncChar, ha, hb]]
    rw [List.cons_append, List.cons_append, List.nil_append,
      decodeUnit_twoByte rest (by omega) (by omega) (by omega) (by omega)]
    rw [show (192 + c.toNat / 64 - 192) * 64 + (128 + c.toNat % 64 - 128) = c.toNat from by
      omega, Char.ofNat_toNat]
  by_cases hc : c.toNat < 65536
  · rw [show utf8EncChar c =
        [224 + c.toNat / 4096, 128 + c.toNat / 64 % 64, 128 + c.toNat % 64] from by
      simp [utf8EncChar, ha, hb, hc]]
    rw [List.cons_append, List.cons_append, List.cons_append, List.nil_append,
      decodeUnit_threeByte rest (by omega) (by omega) (by omega) (by omega) (by omega)
        (by omega) (by omega) (by omega)]
    rw [show (224 + c.toNat / 4096 - 224) * 4096 + (128 + c.toNat / 64 % 64 - 128) * 64 +
        (128 + c.toNat % 64 - 128) = c.toNat from by omega, Char.ofNat_toNat]
  · rw [show utf8EncChar c =
        [240 + c.toNat / 262144, 128 + c.toNat / 4096 % 64, 128 + c.toNat / 64 % 64,
          128 + c.toNat % 64] from by simp [utf8EncChar, ha, hb, hc]]
    rw [List.cons_append, List.cons_append, List.cons_append, List.cons_append,
      List.nil_append,
      decodeUnit_fourByte rest (by omega) (by omega) (by omega) (by omega) (by omega)
        (by omega) (by omega) (by omega) (by omega) (by omega)]
    rw [show (240 + c.toNat / 262144 - 240) * 262144 + (128 + c.toNat / 4096 % 64 - 128) * 4096 +
        (128 + c.toNat / 64 % 64 - 128) * 64 + (128 + c.toNat % 64 - 128) = c.toNat from by
      omega, Char.ofNat_toNat]

theorem jsonEscapeChar_length_pos (c : Char) : 0 < (jsonEscapeChar c).length := by
  have hne : jsonEscapeChar c ≠ [] := by
    intro h
    have hd := decodeUnit_escChar c []
    rw [h, List.nil_append] at hd
    simp [decodeUnit] at hd
  exact List.length_pos.mpr hne

theorem escBytes_length (cs : List Char) : cs.length ≤ (escBytes cs).length := by
  induction cs with
  | nil => simp [escBytes]
  | cons c cs ih =>
    have := jsonEscapeChar_length_pos c
    simp only [escBytes, List.length_append, List.length_cons]
    omega

theorem parseJStringF_escBytes :
    ∀ (cs : List Char) (fuel : Nat) (rest : List Nat), cs.length < fuel →
      parseJStringF fuel (escBytes cs ++ (34 :: rest)) = some (cs, rest) := by
  intro cs
  induction cs with
  | nil =>
    intro fuel rest h
    match fuel, h with
    | f + 1, _ =>
      rw [escBytes, List.nil_append, parseJStringF_close f (decodeUnit_quote rest)]
  | cons c cs ih =>
    intro fuel rest h
    match fuel, h with
    | f + 1, h =>
      rw [escBytes, List.append_assoc, parseJStringF_step f (decodeUnit_escChar c _),
        ih f rest (by simp only [List.length_cons] at h; omega)]
      rfl

theorem setField_key (v : String) (p : NotesPagination) :
    setField "key" v p = { p with Key := v } := by
  rw [setField, if_pos rfl]

theorem setField_keyType (v : String) (p : NotesPagination) :
    setField "key_type" v p = { p with KeyType := v } := by
  rw [setField, if_neg (by decide), if_pos rfl]

theorem setField_id (v : String) (p : NotesPagination) :
    setField "id" v p = { p with ID := v } := by
  rw [setField, if_neg (by decide), if_neg (by decide), if_pos rfl]

theorem setField_sortBy (v : String) (p : NotesPagination) :
    setField "sort_by" v p = { p with SortBy := v } := by
  rw [setField, if_neg (by decide), if_neg (by decide), if_neg (by decide), if_pos rfl]

theorem setField_direction (v : String) (p : NotesPagination) :
    setField "direction" v p = { p with Direction := v } := by
  rw [setField, if_neg (by decide), if_neg (by decide), if_neg (by decide),
    if_neg (by decide), if_pos rfl]

theorem parseFields_comma (fuel : Nat) (k v : String) (rest : List Nat) (p : NotesPagination) :
    parseFields (fuel + 1) (renderField k v (44 :: rest)) p =
      parseFields fuel rest (setField k v p) := by
  simp only [parseFields, renderField]
  rw [parseJStringF_escBytes k.data _ _ (by
    simp only [List.length_append, List.length_cons]
    have := escBytes_length k.data
    omega)]
  dsimp only
  rw [parseJStringF_escBytes v.data _ _ (by
    simp only [List.length_append, List.length_cons]
    have := escBytes_length v.data
    omega)]

theorem parseFields_close (fuel : Nat) (k v : String) (rest : List Nat) (p : NotesPagination) :
    parseFields (fuel + 1) (renderField k v (125 :: rest)) p =
      some (setField k v p, rest) := by
  simp only [parseFields, renderField]
  rw [parseJStringF_escBytes k.data _ _ (by
    simp only [List.length_append, List.length_cons]
    have := escBytes_length k.data
    omega)]
  dsimp only
  rw [parseJStringF_escBytes v.data _ _ (by
    simp only [List.length_append, List.length_cons]
    have := escBytes_length v.data
    omega)]

theorem parseFields_render (c : NotesPagination) : ∀ fuel, 5 ≤ fuel →
    parseFields fuel
      (renderField "key" c.Key
        (44 :: renderField "key_type" c.KeyType
          (44 :: renderField "id" c.ID
            (44 :: renderField "sort_by" c.SortBy
              (44 :: renderField "direction" c.Direction [125]))))) emptyCursor =
      some (c, []) := by
  intro fuel h
  obtain ⟨f, rfl⟩ : ∃ f, fuel = f + 5 := ⟨fuel - 5, by omega⟩
  rw [show f + 5 = (f + 4) + 1 from rfl, parseFields_comma]
  rw [show f + 4 = (f + 3) + 1 from rfl, parseFields_comma]
  rw [show f + 3 = (f + 2) + 1 from rfl, parseFields_comma]
  rw [show f + 2 = (f + 1) + 1 from rfl, parseFields_comma]
  rw [parseFields_close]
  rw [setField_key, setField_keyType, setField_id, setField_sortBy, setField_direction]

theorem parseCursorBytes_render (c : NotesPagination) :
    parseCursorBytes (renderCursor c) = some c := by
  have hfuel : 5 ≤ (renderField "key" c.Key
      (44 :: renderField "key_type" c.KeyType
        (44 :: renderField "id" c.ID
          (44 :: renderField "sort_by" c.SortBy
            (44 :: renderField "direction" c.Direction [125]))))).length := by
    simp only [renderField, List.length_cons, List.length_append]
    omega
  have hparse := parseFields_render c _ hfuel
  unfold parseCursorBytes renderCursor
  simp only [renderField] at hparse ⊢
  rw [hparse]
  rfl

theorem hexDigitChar_lt {d : Nat} (h : d < 16) : hexDigitChar d < 256 := by
  unfold hexDigitChar
  split <;> omega

theorem utf8EncChar_lt (c : Char) : ∀ b ∈ utf8EncChar c, b < 256 := by
  have hv := char_valid_nat c
  simp only [utf8EncChar]
  split_ifs with h1 h2 h3 <;> intro b hb <;> simp only [List.mem_cons,
    List.mem_singleton, List.not_mem_nil, or_false] at hb <;> omega

theorem jsonEscapeChar_lt (c : Char) : ∀ b ∈ jsonEscapeChar c, b < 256 := by
  have hv := char_valid_nat c
  simp only [jsonEscapeChar]
  split_ifs with h1 h2 h3 h4 h5 h6 h7
  · intro b hb
    simp only [List.mem_cons, List.not_mem_nil, or_false] at hb
    omega
  · intro b hb
    simp only [List.mem_cons, List.not_mem_nil, or_false] at hb
    omega
  · intro b hb
    simp only [List.mem_cons, List.not_mem_nil, or_false] at hb
    omega
  · intro b hb
    simp only [List.mem_cons, List.not_mem_nil, or_false] at hb
    omega
  · intro b hb
    simp only [List.mem_cons, List.not_mem_nil, or_false] at hb
    omega
  · intro b hb
    have d1 := hexDigitChar_lt (show c.toNat / 16 % 16 < 16 by omega)
    have d2 := hexDigitChar_lt (show c.toNat % 16 < 16 by omega)
    have hd : c.toNat / 16 < 16 := by omega
    rw [show c.toNat / 16 % 16 = c.toNat / 16 from by omega] at d1
    simp only [List.mem_cons, List.not_mem_nil, or_false] at hb
    omega
  · intro b hb
    have d2 := hexDigitChar_lt (show c.toNat % 16 < 16 by omega)
    simp only [List.mem_cons, List.not_mem_nil, or_false] at hb
    omega
  · exact utf8EncChar_lt c

theorem escBytes_lt (cs : List Char) : ∀ b ∈ escBytes cs, b < 256 := by
  induction cs with
  | nil => simp [escBytes]
  | cons c cs ih =>
    intro b hb
    rw [escBytes, List.mem_append] at hb
    rcases hb with hb | hb
    · exact jsonEscapeChar_lt c b hb
    · exact ih b hb

theorem renderField_lt (k v : String) (tail : List Nat) (htail : ∀ b ∈ tail, b < 256) :
    ∀ b ∈ renderField k v tail, b < 256 := by
  intro b hb
  simp only [renderField, List.mem_cons, List.mem_append] at hb
  rcases hb with rfl | hb
  · omega
  rcases hb with hb | hb
  · exact escBytes_lt k.data b hb
  rcases hb with rfl | hb
  · omega
  rcases hb with rfl | hb
  · omega
  rcases hb with rfl | hb
  · omega
  rcases hb with hb | hb
  · exact escBytes_lt v.data b hb
  rcases hb with rfl | hb
  · omega
  · exact htail b hb

theorem renderCursor_lt (c : NotesPagination) : ∀ b ∈ renderCursor c, b < 256 := by
  intro b hb
  rw [renderCursor, List.mem_cons] at hb
  rcases hb with rfl | hb
  · omega
  refine renderField_lt _ _ _ ?_ b hb
  intro b hb
  rw [List.mem_cons] at hb
  rcases hb with rfl | hb
  · omega
  refine renderField_lt _ _ _ ?_ b hb
  intro b hb
  rw [List.mem_cons] at hb
  rcases hb with rfl | hb
  · omega
  refine renderField_lt _ _ _ ?_ b hb
  intro b hb
  rw [List.mem_cons] at hb
  rcases hb with rfl | hb
  · omega
  refine renderField_lt _ _ _ ?_ b hb
  intro b hb
  rw [List.mem_cons] at hb
  rcases hb with rfl | hb
  · omega
  refine renderField_lt _ _ _ ?_ b hb
  intro b hb
  simp only [List.mem_singleton] at hb
  omega

theorem EncodePaginationToken_ne_empty (c : NotesPagination) :
    EncodePaginationToken c ≠ "" := by
  intro h
  have hdata : b64encodeList (renderCursor c) = [] := congrArg String.data h
  exact b64encodeList_ne_nil (by simp [renderCursor]) hdata

theorem decode_encode_roundtrip (c : NotesPagination) (h1 : c.Key ≠ "")
    (h2 : c.KeyType ≠ "") (h3 : c.ID ≠ "") (h4 : c.SortBy ≠ "") (h5 : c.Direction ≠ "") :
    DecodePaginationToken (EncodePaginationToken c) = .ok c := by
  rw [DecodePaginationToken, if_neg (EncodePaginationToken_ne_empty c)]
  have hdata : (EncodePaginationToken c).data = b64encodeList (renderCursor c) := rfl
  rw [hdata, b64_roundtrip _ (renderCursor_lt c)]
  simp only [parseCursorBytes_render c]
  rw [if_neg]
  simp [h1, h2, h3, h4, h5]

/-! ### Support lemmas about the listing operation -/

theorem clampPageSize_pos (n : Int) : 0 < clampPageSize n := by
  unfold clampPageSize
  split_ifs <;> omega

theorem buildPage_next_iff (pageSize : Nat) (hps : 0 < pageSize) (sortBy dir : String)
    (sorted : List Note) :
    (buildPage pageSize sortBy dir sorted).2 ≠ "" ↔
      (buildPage pageSize sortBy dir sorted).1.length = pageSize := by
  unfold buildPage
  dsimp only
  by_cases h : (sorted.take pageSize).length = pageSize
  · simp only [h, if_pos rfl]
    cases hgl : (sorted.take pageSize).getLast? with
    | none =>
      rw [List.getLast?_eq_none_iff] at hgl
      rw [hgl] at h
      simp at h
      omega
    | some last =>
      simp [EncodePaginationToken_ne_empty]
  · rw [if_neg h]
    exact iff_of_false (by simp) h

theorem buildPage_full (pageSize : Nat) (hps : 0 < pageSize) (sortBy dir : String)
    (sorted : List Note) (h : (buildPage pageSize sortBy dir sorted).1.length = pageSize) :
    ∃ last, (buildPage pageSize sortBy dir sorted).1.getLast? = some last ∧
      (buildPage pageSize sortBy dir sorted).2 =
        EncodePaginationToken (deriveCursor sortBy dir last) := by
  unfold buildPage at h ⊢
  simp only at h
  cases hgl : (sorted.take pageSize).getLast? with
  | none =>
    rw [List.getLast?_eq_none_iff] at hgl
    rw [hgl] at h
    simp at h
    omega
  | some last =>
    exact ⟨last, rfl, by simp [h, hgl]⟩

theorem ListNotes_ok_shape {fts : String → Note → Bool} {rows : List Note}
    {f0 : ListNotesFilter} {notes : List Note} {next : String}
    (h : ListNotes fts rows f0 = .ok (notes, next)) :
    ∃ sorted, buildPage (clampPageSize f0.pageSize) (normalizeSortBy f0.sortBy)
      (dirOf f0.sortDesc) sorted = (notes, next) := by
  unfold ListNotes at h
  simp only at h
  split at h
  · exact ⟨_, by injection h⟩
  · split at h
    · cases h
    · exact ⟨_, by injection h⟩

theorem deriveCursor_updatedAt (dir : String) (last : Note) :
    deriveCursor "updated_at" dir last =
      ⟨timeFormat last.updatedAt, "time", last.id, "updated_at", dir⟩ := by
  rw [deriveCursor, if_pos rfl]

theorem deriveCursor_createdAt (dir : String) (last : Note) :
    deriveCursor "created_at" dir last =
      ⟨timeFormat last.createdAt, "time", last.id, "created_at", dir⟩ := by
  rw [deriveCursor, if_neg (by decide), if_pos rfl]

theorem deriveCursor_title (dir : String) (last : Note) :
    deriveCursor "title" dir last = ⟨last.title, "string", last.id, "title", dir⟩ := by
  rw [deriveCursor, if_neg (by decide), if_neg (by decide), if_pos rfl]

theorem deriveCursor_isPinned (dir : String) (last : Note) :
    deriveCursor "is_pinned" dir last =
      ⟨formatBool last.isPinned, "bool", last.id, "is_pinned", dir⟩ := by
  rw [deriveCursor, if_neg (by decide), if_neg (by decide), if_neg (by decide), if_pos rfl]

/-! ## Claim theorems -/

/-- C3: for every cursor whose five fields (key, key type, id, sort-by,
direction) are all non-empty, decoding the token produced by encoding that
cursor returns the identical cursor and no error. -/
theorem C3_roundtrip (c : NotesPagination) (h1 : c.Key ≠ "") (h2 : c.KeyType ≠ "")
    (h3 : c.ID ≠ "") (h4 : c.SortBy ≠ "") (h5 : c.Direction ≠ "") :
    DecodePaginationToken (EncodePaginationToken c) = .ok c :=
  decode_encode_roundtrip c h1 h2 h3 h4 h5

theorem C3_roundtrip_witness :
    (("2024" : String) ≠ "" ∧ ("time" : String) ≠ "" ∧ ("n1" : String) ≠ "" ∧
      ("updated_at" : String) ≠ "" ∧ ("DESC" : String) ≠ "") ∧
    DecodePaginationToken (EncodePaginationToken ⟨"2024", "time", "n1", "updated_at", "DESC"⟩) =
      .ok ⟨"2024", "time", "n1", "updated_at", "DESC"⟩ :=
  ⟨⟨by decide, by decide, by decide, by decide, by decide⟩,
    C3_roundtrip ⟨"2024", "time", "n1", "updated_at", "DESC"⟩ (by decide) (by decide)
      (by decide) (by decide) (by decide)⟩

/-- C5: decoding errors exactly on a non-empty token that is not valid
base64url, or does not parse structurally, or parses to a cursor with at
least one of the five fields empty; the empty token decodes to the empty
cursor with no error. -/
theorem C5_decode_error_iff :
    DecodePaginationToken "" = .ok emptyCursor ∧
    ∀ t : String, (∃ e, DecodePaginationToken t = .error e) ↔
      t ≠ "" ∧ (b64decodeList t.data = none ∨
        ∃ bs, b64decodeList t.data = some bs ∧ (parseCursorBytes bs = none ∨
          ∃ p, parseCursorBytes bs = some p ∧ (p.Key = "" ∨ p.SortBy = "" ∨
            p.Direction = "" ∨ p.ID = "" ∨ p.KeyType = ""))) := by
  refine ⟨rfl, fun t => ?_⟩
  by_cases ht : t = ""
  · subst ht
    simp [DecodePaginationToken]
  rw [DecodePaginationToken, if_neg ht]
  cases hb : b64decodeList t.data with
  | none => simp [ht, hb]
  | some bs =>
    cases hp : parseCursorBytes bs with
    | none => simp [ht, hb, hp]
    | some p =>
      by_cases hf : p.Key = "" ∨ p.SortBy = "" ∨ p.Direction = "" ∨ p.ID = "" ∨ p.KeyType = ""
      · simp [ht, hb, hp, hf]
      · simp [ht, hb, hp, hf]

theorem C5_decode_error_iff_witness :
    (∃ e, DecodePaginationToken "!!" = .error e) ↔
      ("!!" : String) ≠ "" ∧ (b64decodeList ("!!" : String).data = none ∨
        ∃ bs, b64decodeList ("!!" : String).data = some bs ∧ (parseCursorBytes bs = none ∨
          ∃ p, parseCursorBytes bs = some p ∧ (p.Key = "" ∨ p.SortBy = "" ∨
            p.Direction = "" ∨ p.ID = "" ∨ p.KeyType = ""))) :=
  C5_decode_error_iff.2 "!!"

/-- C2: the built query orders rows by the compound key (sort column, row
id) with both keys in the same direction, and the keyset predicate of a
cursor is `(col < key OR (col = key AND id < cursor.id))` for descending,
with `<` flipped to `>` for ascending; the bound arguments are the
cursor's key (twice) and id. -/
theorem C2_order_and_predicate : ∀ (f : ListNotesFilter) (c : NotesPagination),
    orderByClause (normalizeSortBy f.sortBy) (dirOf f.sortDesc) =
      "n." ++ normalizeSortBy f.sortBy ++ " " ++ dirOf f.sortDesc ++ ", n.id " ++
        dirOf f.sortDesc ∧
    cursorOp (dirOf f.sortDesc) = (if f.sortDesc then "<" else ">") ∧
    cursorWhereSQL (normalizeSortBy f.sortBy) (cursorOp (dirOf f.sortDesc)) =
      "(n." ++ normalizeSortBy f.sortBy ++ " " ++ (if f.sortDesc then "<" else ">") ++
        " ? OR (n." ++ normalizeSortBy f.sortBy ++ " = ? AND n.id " ++
        (if f.sortDesc then "<" else ">") ++ " ?))" ∧
    cursorArgs c = [c.Key, c.Key, c.ID] ∧
    (∀ (col : String) (k : SortVal) (cid : String) (n : Note),
      cursorAfter col (dirOf f.sortDesc) k cid n = true ↔
        specAfterCursor f.sortDesc (colValue col n) k n.id cid) ∧
    (∀ (col : String) (a b : Note),
      rowLE col f.sortDesc a b = true ↔
        (if f.sortDesc then specPairLE (colValue col b) b.id (colValue col a) a.id
         else specPairLE (colValue col a) a.id (colValue col b) b.id)) := by
  intro f c
  cases hd : f.sortDesc
  · refine ⟨rfl, rfl, rfl, rfl, fun col k cid n => ?_, fun col a b => ?_⟩
    · simp [cursorAfter, dirOf, specAfterCursor]
    · simp only [rowLE, specPairLE, strLeB, if_false, Bool.false_eq_true, if_neg,
        Bool.or_eq_true, Bool.and_eq_true, decide_eq_true_eq]
  · refine ⟨rfl, rfl, rfl, rfl, fun col k cid n => ?_, fun col a b => ?_⟩
    · simp [cursorAfter, dirOf, specAfterCursor]
    · simp only [rowLE, specPairLE, strLeB, if_true, Bool.or_eq_true, Bool.and_eq_true,
        decide_eq_true_eq]
      tauto

/-- C4: for every listing call that succeeds, the returned next-page token
is non-empty if and only if the number of returned rows equals the
normalized page size; a short page produces no cursor. -/
theorem C4_next_token_iff_full (fts : String → Note → Bool) (rows : List Note)
    (f : ListNotesFilter) (notes : List Note) (next : String)
    (h : ListNotes fts rows f = .ok (notes, next)) :
    next ≠ "" ↔ notes.length = clampPageSize f.pageSize := by
  obtain ⟨sorted, hbp⟩ := ListNotes_ok_shape h
  have hiff := buildPage_next_iff (clampPageSize f.pageSize) (clampPageSize_pos _)
    (normalizeSortBy f.sortBy) (dirOf f.sortDesc) sorted
  rw [hbp] at hiff
  exact hiff

theorem C4_next_token_iff_full_witness :
    ("" : String) ≠ "" ↔ ([] : List Note).length = clampPageSize c1Filter.pageSize :=
  C4_next_token_iff_full sampleFts [] c1Filter [] "" rfl

/-- C8: whenever a next cursor is derived (from the last row of a full
page), it is the encoding of the cursor the `switch` derives from that
row, whose key type tag and key are `time` with the formatted timestamp
for `updated_at`/`created_at`, `string` with the row's title for `title`,
and `bool` with `true`/`false` for `is_pinned`. -/
theorem C8_derived_cursor_tags :
    (∀ (fts : String → Note → Bool) (rows : List Note) (f : ListNotesFilter)
      (notes : List Note) (next : String), ListNotes fts rows f = .ok (notes, next) →
      notes.length = clampPageSize f.pageSize →
      ∃ last, notes.getLast? = some last ∧
        next = EncodePaginationToken
          (deriveCursor (normalizeSortBy f.sortBy) (dirOf f.sortDesc) last)) ∧
    (∀ (dir : String) (last : Note),
      deriveCursor "updated_at" dir last =
        ⟨timeFormat last.updatedAt, "time", last.id, "updated_at", dir⟩ ∧
      deriveCursor "created_at" dir last =
        ⟨timeFormat last.createdAt, "time", last.id, "created_at", dir⟩ ∧
      deriveCursor "title" dir last = ⟨last.title, "string", last.id, "title", dir⟩ ∧
      deriveCursor "is_pinned" dir last =
        ⟨formatBool last.isPinned, "bool", last.id, "is_pinned", dir⟩) := by
  constructor
  · intro fts rows f notes next h hlen
    obtain ⟨sorted, hbp⟩ := ListNotes_ok_shape h
    have h1 : (buildPage (clampPageSize f.pageSize) (normalizeSortBy f.sortBy)
        (dirOf f.sortDesc) sorted).1 = notes := by rw [hbp]
    have h2 : (buildPage (clampPageSize f.pageSize) (normalizeSortBy f.sortBy)
        (dirOf f.sortDesc) sorted).2 = next := by rw [hbp]
    obtain ⟨last, hgl, henc⟩ := buildPage_full (clampPageSize f.pageSize)
      (clampPageSize_pos _) (normalizeSortBy f.sortBy) (dirOf f.sortDesc) sorted
      (by rw [h1]; exact hlen)
    exact ⟨last, by rw [← h1]; exact hgl, by rw [← h2]; exact henc⟩
  · intro dir last
    exact ⟨deriveCursor_updatedAt dir last, deriveCursor_createdAt dir last,
      deriveCursor_title dir last, deriveCursor_isPinned dir last⟩

theorem C8_derived_cursor_tags_witness :
    c8Page.length = clampPageSize c8Filter.pageSize ∧
    ∃ last, c8Page.getLast? = some last ∧
      c8Token = EncodePaginationToken
        (deriveCursor (normalizeSortBy c8Filter.sortBy) (dirOf c8Filter.sortDesc) last) :=
  ⟨by decide, C8_derived_cursor_tags.1 sampleFts (sampleRows 10) c8Filter c8Page c8Token
    rfl (by decide)⟩

/-- C9: a listing call whose non-empty page token fails to decode does not
fail because of the token: the cursor predicate is silently omitted and
the call behaves exactly like a first-page request. -/
theorem C9_bad_token_ignored (fts : String → Note → Bool) (rows : List Note)
    (f : ListNotesFilter) (hne : f.pageToken ≠ "")
    (herr : ∃ e, DecodePaginationToken f.pageToken = .error e) :
    ListNotes fts rows f = ListNotes fts rows { f with pageToken := "" } := by
  obtain ⟨e, he⟩ := herr
  unfold ListNotes
  simp only
  rw [if_neg hne, he]
  rfl

theorem C9_bad_token_ignored_witness :
    ListNotes sampleFts (sampleRows 2) { c1Filter with pageToken := "%%%" } =
      ListNotes sampleFts (sampleRows 2)
        { { c1Filter with pageToken := "%%%" } with pageToken := "" } :=
  C9_bad_token_ignored sampleFts (sampleRows 2) { c1Filter with pageToken := "%%%" }
    (by decide) ⟨"illegal base64 data", rfl⟩

/-- C10: a successfully decoded cursor contributes only its key value and
tie-break id to the query; its stored sort-by, direction and key-type
fields are ignored, the comparison column and direction coming from the
current request's normalized filter.  Hence two tokens whose cursors agree
on key and id produce identical listings under any filter. -/
theorem C10_cursor_fields_ignored (fts : String → Note → Bool) (rows : List Note)
    (f : ListNotesFilter) (t1 t2 : String) (c1 c2 : NotesPagination)
    (h1 : t1 ≠ "") (h2 : t2 ≠ "")
    (hd1 : DecodePaginationToken t1 = .ok c1) (hd2 : DecodePaginationToken t2 = .ok c2)
    (hKey : c1.Key = c2.Key) (hID : c1.ID = c2.ID) :
    ListNotes fts rows { f with pageToken := t1 } =
      ListNotes fts rows { f with pageToken := t2 } := by
  unfold ListNotes
  simp only
  rw [if_neg h1, if_neg h2, hd1, hd2]
  dsimp only
  rw [hKey, hID]
  rfl

theorem C10_cursor_fields_ignored_witness :
    ListNotes sampleFts (sampleRows 3)
      { c1Filter with
          pageToken := EncodePaginationToken ⟨"5", "time", "n1", "updated_at", "DESC"⟩ } =
    ListNotes sampleFts (sampleRows 3)
      { c1Filter with
          pageToken := EncodePaginationToken ⟨"5", "string", "n1", "title", "ASC"⟩ } :=
  C10_cursor_fields_ignored sampleFts (sampleRows 3) c1Filter _ _
    ⟨"5", "time", "n1", "updated_at", "DESC"⟩ ⟨"5", "string", "n1", "title", "ASC"⟩
    (EncodePaginationToken_ne_empty _) (EncodePaginationToken_ne_empty _)
    (decode_encode_roundtrip _ (by decide) (by decide) (by decide) (by decide) (by decide))
    (decode_encode_roundtrip _ (by decide) (by decide) (by decide) (by decide) (by decide))
    rfl rfl

/-- C6 counterexample: the claim as stated fails — `"TITLE"` is outside
the whitelist set `{updated_at, created_at, title, is_pinned}`, yet
normalization keeps it (the `switch` lower-cases before comparing and
keeps the original spelling) instead of mapping it to `updated_at`. -/
theorem C6_counterexample :
    ("TITLE" : String) ∉ sortWhitelist ∧ normalizeSortBy "TITLE" = "TITLE" ∧
      ("TITLE" : String) ≠ "updated_at" := by
  refine ⟨by decide, ?_, by decide⟩
  rw [normalizeSortBy, if_pos (by decide)]

/-- C6 (amended): page sizes below 10 clamp to 10, above 100 clamp to 100,
and values in [10,100] are unchanged; a sort column whose lower-cased form
is outside the whitelist (in particular a blank one) is replaced by
`updated_at`, while a column whose lower-cased form is whitelisted is kept
with its original spelling. -/
theorem C6_normalization :
    (∀ n : Int, (n < 10 → clampPageSize n = 10) ∧ (n > 100 → clampPageSize n = 100) ∧
      (10 ≤ n → n ≤ 100 → clampPageSize n = n.toNat)) ∧
    (∀ s : String, (lowerString s ∈ sortWhitelist → normalizeSortBy s = s) ∧
      (lowerString s ∉ sortWhitelist → normalizeSortBy s = "updated_at")) := by
  constructor
  · intro n
    refine ⟨fun h => ?_, fun h => ?_, fun h1 h2 => ?_⟩
    · rw [clampPageSize, if_pos h]
    · rw [clampPageSize, if_neg (by omega), if_pos h]
    · rw [clampPageSize, if_neg (by omega), if_neg (by omega)]
  · intro s
    constructor
    · intro h
      rw [normalizeSortBy, if_pos h]
    · intro h
      rw [normalizeSortBy, if_neg h]

theorem C6_normalization_witness :
    clampPageSize 3 = 10 ∧ clampPageSize 500 = 100 ∧ clampPageSize 50 = (50 : Int).toNat ∧
    normalizeSortBy "bogus" = "updated_at" ∧ normalizeSortBy "title" = "title" :=
  ⟨(C6_normalization.1 3).1 (by decide), (C6_normalization.1 500).2.1 (by decide),
    (C6_normalization.1 50).2.2 (by decide) (by decide),
    (C6_normalization.2 "bogus").2 (by decide), (C6_normalization.2 "title").1 (by decide)⟩

/-- C7 counterexample: the claim as stated fails — a request that does not
set the descending flag (and hence does not explicitly request ascending
order) is normalized to `SortDesc = false`, and the direction used is
`ASC`, not `DESC`. -/
theorem C7_counterexample :
    c7Request.sortDesc = none ∧ (ProtoToListNotesFilter c7Request).sortDesc = false ∧
      dirOf (ProtoToListNotesFilter c7Request).sortDesc = "ASC" ∧
      ("ASC" : String) ≠ "DESC" := by
  refine ⟨rfl, rfl, rfl, by decide⟩

/-- C7 (amended): the direction is descending exactly when the caller
explicitly sets the descending flag to true; when the flag is absent or
false the direction used for the ORDER BY clause and the cursor comparator
is ascending. -/
theorem C7_direction_default :
    (∀ req : ListNotesRequest,
      dirOf (ProtoToListNotesFilter req).sortDesc =
        (if req.sortDesc = some true then "DESC" else "ASC")) ∧
    (∀ b : Bool, dirOf b = (if b then "DESC" else "ASC")) := by
  constructor
  · intro req
    cases hsd : req.sortDesc with
    | none => simp [ProtoToListNotesFilter, dirOf, hsd]
    | some b =>
      cases b <;> simp [ProtoToListNotesFilter, dirOf, hsd]
  · intro b
    rfl

/-- C1 (failing input): with sort column `Title` — accepted by the
case-insensitive whitelist but missed by the case-sensitive next-cursor
`switch` — eleven rows with distinct titles and page size 10 make the
derived cursor record the `updated_at` value instead of the title.  The
second call, passing the returned token, repeats the first ten rows
verbatim and returns the same token again, so row `n11` is never yielded:
rows are duplicated and dropped, contradicting the exactly-once claim and
the keyset comment in `ListNotes`. -/
theorem C1_pagination_eval :
    ListNotes sampleFts (sampleRows 11) c1Filter = .ok (c1Page1, c1Token) ∧
    c1Token ≠ "" ∧
    ListNotes sampleFts (sampleRows 11) { c1Filter with pageToken := c1Token } =
      .ok (c1Page1, c1Token) ∧
    sampleRow 11 ∈ sampleRows 11 ∧ sampleRow 11 ∉ c1Page1 :=
  ⟨rfl, by decide, rfl, by decide, by decide⟩

/-! ## The keyset-pagination contract, proved for canonical sort columns

The remainder develops the positive counterpart of the C1 analysis: when
the (normalized) sort column is one of the exact whitelist spellings —
so the case-sensitive next-cursor `switch` agrees with the column the
query sorts by — and row ids are pairwise distinct and non-empty (and
titles non-empty when sorting by title), driving the listing to
exhaustion yields every selected row exactly once, in the declared
order. -/

theorem char_eq_of_toNat_eq {a b : Char} (h : a.toNat = b.toNat) : a = b := by
  rw [← Char.ofNat_toNat a, ← Char.ofNat_toNat b, h]

theorem charListLtB_irrefl : ∀ l, charListLtB l l = false := by
  intro l
  induction l with
  | nil => rfl
  | cons a as ih => simp [charListLtB, charLtB, ih]

theorem charListLtB_trans : ∀ {l1 l2 l3 : List Char}, charListLtB l1 l2 = true →
    charListLtB l2 l3 = true → charListLtB l1 l3 = true := by
  intro l1
  induction l1 with
  | nil =>
    intro l2 l3 h1 h2
    cases l2 with
    | nil => simp [charListLtB] at h1
    | cons b bs =>
      cases l3 with
      | nil => simp [charListLtB] at h2
      | cons c cs => simp [charListLtB]
  | cons a as ih =>
    intro l2 l3 h1 h2
    cases l2 with
    | nil => simp [charListLtB] at h1
    | cons b bs =>
      cases l3 with
      | nil => simp [charListLtB] at h2
      | cons c cs =>
        simp only [charListLtB, charLtB, Bool.or_eq_true, Bool.and_eq_true,
          decide_eq_true_eq] at h1 h2 ⊢
        rcases h1 with h1 | ⟨hab, h1⟩
        · rcases h2 with h2 | ⟨hbc, h2⟩
          · exact Or.inl (by omega)
          · subst hbc
            exact Or.inl h1
        · subst hab
          rcases h2 with h2 | ⟨hbc, h2⟩
          · exact Or.inl h2
          · subst hbc
            exact Or.inr ⟨rfl, ih h1 h2⟩

theorem charListLtB_asymm : ∀ {l1 l2 : List Char}, charListLtB l1 l2 = true →
    charListLtB l2 l1 = false := by
  intro l1
  induction l1 with
  | nil =>
    intro l2 h1
    cases l2 with
    | nil => simp [charListLtB] at h1
    | cons b bs => simp [charListLtB]
  | cons a as ih =>
    intro l2 h1
    cases l2 with
    | nil => simp [charListLtB] at h1
    | cons b bs =>
      simp only [charListLtB, charLtB, Bool.or_eq_true, Bool.and_eq_true,
        decide_eq_true_eq, Bool.or_eq_false_iff, Bool.and_eq_false_iff,
        decide_eq_false_iff_not] at h1 ⊢
      rcases h1 with h1 | ⟨hab, h1⟩
      · constructor
        · omega
        · left
          intro hba
          rw [hba] at h1
          omega
      · subst hab
        refine ⟨by omega, Or.inr (ih h1)⟩

theorem charListLtB_connex : ∀ {l1 l2 : List Char}, charListLtB l1 l2 = false →
    charListLtB l2 l1 = false → l1 = l2 := by
  intro l1
  induction l1 with
  | nil =>
    intro l2 h1 _
    cases l2 with
    | nil => rfl
    | cons b bs => simp [charListLtB] at h1
  | cons a as ih =>
    intro l2 h1 h2
    cases l2 with
    | nil => simp [charListLtB] at h2
    | cons b bs =>
      simp only [charListLtB, charLtB, Bool.or_eq_false_iff, Bool.and_eq_false_iff,
        decide_eq_false_iff_not] at h1 h2
      have hab : a = b := char_eq_of_toNat_eq (by omega)
      subst hab
      rcases h1.2 with h1' | h1'
      · exact absurd rfl h1'
      rcases h2.2 with h2' | h2'
      · exact absurd rfl h2'
      rw [ih h1' h2']

theorem str_eq_of_data {a b : String} (h : a.data = b.data) : a = b := by
  cases a
  cases b
  exact congrArg String.mk h

theorem strLtB_irrefl (a : String) : strLtB a a = false := charListLtB_irrefl a.data

theorem strLtB_trans {a b c : String} (h1 : strLtB a b = true) (h2 : strLtB b c = true) :
    strLtB a c = true := charListLtB_trans h1 h2

theorem strLtB_asymm {a b : String} (h : strLtB a b = true) : strLtB b a = false :=
  charListLtB_asymm h

theorem strLtB_connex {a b : String} (h1 : strLtB a b = false) (h2 : strLtB b a = false) :
    a = b := str_eq_of_data (charListLtB_connex h1 h2)

theorem strLeB_refl (a : String) : strLeB a a = true := by simp [strLeB]

theorem strLeB_trans {a b c : String} (h1 : strLeB a b = true) (h2 : strLeB b c = true) :
    strLeB a c = true := by
  simp only [strLeB, Bool.or_eq_true, decide_eq_true_eq] at h1 h2 ⊢
  rcases h1 with h1 | rfl
  · rcases h2 with h2 | rfl
    · exact Or.inl (strLtB_trans h1 h2)
    · exact Or.inl h1
  · exact h2

theorem strLeB_total (a b : String) : strLeB a b = true ∨ strLeB b a = true := by
  by_cases h : strLtB a b = true
  · exact Or.inl (by simp [strLeB, h])
  · by_cases h2 : strLtB b a = true
    · exact Or.inr (by simp [strLeB, h2])
    · rw [Bool.not_eq_true] at h h2
      rw [strLtB_connex h h2]
      exact Or.inl (strLeB_refl b)

theorem strLeB_of_strLtB {a b : String} (h : strLtB a b = true) : strLeB a b = true := by
  simp [strLeB, h]

theorem ltVal_irrefl (v : SortVal) : ltVal v v = false := by
  cases v with
  | timeV t => simp [ltVal]
  | strV s => simp [ltVal, strLtB_irrefl]
  | boolV b => cases b <;> simp [ltVal]

theorem ltVal_trans : ∀ {a b c : SortVal}, ltVal a b = true → ltVal b c = true →
    ltVal a c = true := by
  intro a b c h1 h2
  cases a <;> cases b <;> simp [ltVal] at h1 <;> cases c <;> simp [ltVal] at h2 ⊢
  · omega
  · exact strLtB_trans h1 h2
  · simp_all

theorem ltVal_asymm : ∀ {a b : SortVal}, ltVal a b = true → ltVal b a = false := by
  intro a b h
  cases a <;> cases b <;> simp [ltVal] at h ⊢
  · omega
  · exact strLtB_asymm h
  · simp_all

theorem colValue_connex (col : String) (a b : Note)
    (h1 : ltVal (colValue col a) (colValue col b) = false)
    (h2 : ltVal (colValue col b) (colValue col a) = false) :
    colValue col a = colValue col b := by
  unfold colValue at h1 h2 ⊢
  split_ifs at h1 h2 ⊢ <;>
    first
      | · simp only [ltVal, decide_eq_false_iff_not, Nat.not_lt] at h1 h2
          exact congrArg SortVal.timeV (by omega)
      | · simp only [ltVal] at h1 h2
          exact congrArg SortVal.strV (strLtB_connex h1 h2)
      | · revert h1 h2
          cases ha : a.isPinned <;> cases hb : b.isPinned <;> simp [ltVal]

theorem rowLE_total (col : String) (desc : Bool) (a b : Note) :
    rowLE col desc a b = true ∨ rowLE col desc b a = true := by
  by_cases h : ltVal (colValue col a) (colValue col b) = true
  · cases desc
    · exact Or.inl (by simp [rowLE, h])
    · exact Or.inr (by simp [rowLE, h])
  · by_cases h2 : ltVal (colValue col b) (colValue col a) = true
    · cases desc
      · exact Or.inr (by simp [rowLE, h2])
      · exact Or.inl (by simp [rowLE, h2])
    · rw [Bool.not_eq_true] at h h2
      have heq := colValue_connex col a b h h2
      rcases strLeB_total a.id b.id with hle | hle
      · cases desc
        · exact Or.inl (by simp [rowLE, heq, hle])
        · exact Or.inr (by simp [rowLE, heq.symm, hle])
      · cases desc
        · exact Or.inr (by simp [rowLE, heq.symm, hle])
        · exact Or.inl (by simp [rowLE, heq, hle])

theorem rowLE_trans (col : String) (desc : Bool) {a b c : Note}
    (h1 : rowLE col desc a b = true) (h2 : rowLE col desc b c = true) :
    rowLE col desc a c = true := by
  cases desc <;> simp [rowLE] at h1 h2 ⊢
  · rcases h1 with h1 | ⟨he1, hi1⟩
    · rcases h2 with h2 | ⟨he2, hi2⟩
      · exact Or.inl (ltVal_trans h1 h2)
      · exact Or.inl (he2 ▸ h1)
    · rcases h2 with h2 | ⟨he2, hi2⟩
      · exact Or.inl (he1 ▸ h2)
      · exact Or.inr ⟨he1.trans he2, strLeB_trans hi1 hi2⟩
  · rcases h1 with h1 | ⟨he1, hi1⟩
    · rcases h2 with h2 | ⟨he2, hi2⟩
      · exact Or.inl (ltVal_trans h2 h1)
      · exact Or.inl (he2 ▸ h1)
    · rcases h2 with h2 | ⟨he2, hi2⟩
      · exact Or.inl (he1 ▸ h2)
      · exact Or.inr ⟨he1.trans he2, strLeB_trans hi2 hi1⟩

theorem rowLT_irrefl (col : String) (desc : Bool) (a : Note) :
    rowLT col desc a a = false := by
  cases desc <;> simp [rowLT, ltVal_irrefl, strLtB_irrefl]

theorem rowLT_asymm (col : String) (desc : Bool) {a b : Note}
    (h1 : rowLT col desc a b = true) (h2 : rowLT col desc b a = true) : False := by
  cases desc <;> simp [rowLT] at h1 h2
  · rcases h1 with h1 | ⟨he1, hi1⟩
    · rcases h2 with h2 | ⟨he2, hi2⟩
      · rw [ltVal_asymm h1] at h2
        exact Bool.false_ne_true h2
      · rw [he2, ltVal_irrefl] at h1
        exact Bool.false_ne_true h1
    · rcases h2 with h2 | ⟨he2, hi2⟩
      · rw [he1, ltVal_irrefl] at h2
        exact Bool.false_ne_true h2
      · rw [strLtB_asymm hi1] at hi2
        exact Bool.false_ne_true hi2
  · rcases h1 with h1 | ⟨he1, hi1⟩
    · rcases h2 with h2 | ⟨he2, hi2⟩
      · rw [ltVal_asymm h1] at h2
        exact Bool.false_ne_true h2
      · rw [he2, ltVal_irrefl] at h1
        exact Bool.false_ne_true h1
    · rcases h2 with h2 | ⟨he2, hi2⟩
      · rw [he1, ltVal_irrefl] at h2
        exact Bool.false_ne_true h2
      · rw [strLtB_asymm hi1] at hi2
        exact Bool.false_ne_true hi2

theorem rowLE_of_rowLT (col : String) (desc : Bool) {a b : Note}
    (h : rowLT col desc a b = true) : rowLE col desc a b = true := by
  cases desc <;> simp [rowLT, rowLE] at h ⊢
  · rcases h with h | ⟨he, hi⟩
    · exact Or.inl h
    · exact Or.inr ⟨he, strLeB_of_strLtB hi⟩
  · rcases h with h | ⟨he, hi⟩
    · exact Or.inl h
    · exact Or.inr ⟨he, strLeB_of_strLtB hi⟩

theorem rowLT_of_rowLE_of_ne (col : String) (desc : Bool) {a b : Note}
    (h : rowLE col desc a b = true) (hne : a.id ≠ b.id) : rowLT col desc a b = true := by
  cases desc <;> simp [rowLT, rowLE, strLeB] at h ⊢
  · rcases h with h | ⟨he, hi⟩
    · exact Or.inl h
    · rcases hi with hi | hi
      · exact Or.inr ⟨he, hi⟩
      · exact absurd hi hne
  · rcases h with h | ⟨he, hi⟩
    · exact Or.inl h
    · rcases hi with hi | hi
      · exact Or.inr ⟨he, hi⟩
      · exact absurd hi.symm hne

theorem parseDecAux_append (xs ys : List Char) (acc : Nat) :
    parseDecAux (xs ++ ys) acc =
      match parseDecAux xs acc with
      | some a => parseDecAux ys a
      | none => none := by
  induction xs generalizing acc with
  | nil => rfl
  | cons c cs ih =>
    simp only [List.cons_append, parseDecAux]
    cases digitValue c with
    | none => rfl
    | some d => exact ih _

theorem digitValue_digitByteChar : ∀ d, d < 10 → digitValue (digitByteChar d) = some d := by
  decide

theorem revDecimalDigits_spec : ∀ (fuel n : Nat), n ≤ fuel → n ≠ 0 → ∀ acc : Nat,
    parseDecAux (revDecimalDigits fuel n).reverse acc =
      some (acc * 10 ^ (revDecimalDigits fuel n).length + n) := by
  intro fuel
  induction fuel with
  | zero =>
    intro n h hn acc
    omega
  | succ f ih =>
    intro n h hn acc
    rw [revDecimalDigits, if_neg hn]
    by_cases h0 : n / 10 = 0
    · have hrev0 : revDecimalDigits f (n / 10) = [] := by
        cases f with
        | zero => rfl
        | succ g => rw [revDecimalDigits, if_pos h0]
      rw [hrev0]
      simp only [List.reverse_cons, List.reverse_nil, List.nil_append, List.length_cons,
        List.length_nil, parseDecAux, digitValue_digitByteChar (n % 10) (by omega)]
      congr 1
      have hn10 : n < 10 := by omega
      rw [pow_succ, pow_zero]
      omega
    · have hle : n / 10 ≤ f := by omega
      rw [List.reverse_cons, parseDecAux_append, ih (n / 10) hle h0 acc]
      simp only [parseDecAux, digitValue_digitByteChar (n % 10) (by omega), List.length_cons]
      congr 1
      rw [pow_succ, ← mul_assoc, Nat.add_mul]
      omega

theorem timeFormat_ne_empty (t : Nat) : timeFormat t ≠ "" := by
  unfold timeFormat
  split_ifs with h
  · decide
  · intro hcon
    have hdata : (revDecimalDigits t t).reverse = [] := congrArg String.data hcon
    rw [List.reverse_eq_nil_iff] at hdata
    cases t with
    | zero => exact h rfl
    | succ f =>
      rw [revDecimalDigits, if_neg h] at hdata
      exact List.cons_ne_nil _ _ hdata

theorem timeParse_timeFormat (t : Nat) : timeParse (timeFormat t) = some t := by
  by_cases h : t = 0
  · subst h
    rfl
  · unfold timeParse
    rw [if_neg (timeFormat_ne_empty t)]
    have hdata : (timeFormat t).data = (revDecimalDigits t t).reverse := by
      unfold timeFormat
      rw [if_neg h]
    rw [hdata, revDecimalDigits_spec t t le_rfl h 0]
    simp

theorem colValue_updatedAt (n : Note) : colValue "updated_at" n = .timeV n.updatedAt := by
  rw [colValue, if_pos rfl]

theorem colValue_createdAt (n : Note) : colValue "created_at" n = .timeV n.createdAt := by
  rw [colValue, if_neg (by decide), if_pos rfl]

theorem colValue_title (n : Note) : colValue "title" n = .strV n.title := by
  rw [colValue, if_neg (by decide), if_neg (by decide), if_pos rfl]

theorem colValue_isPinned (n : Note) : colValue "is_pinned" n = .boolV n.isPinned := by
  rw [colValue, if_neg (by decide), if_neg (by decide), if_neg (by decide), if_pos rfl]

theorem parseKey_time_updatedAt (t : Nat) :
    parseKey "updated_at" (timeFormat t) = some (.timeV t) := by
  rw [parseKey, if_neg (by decide), if_neg (by decide), timeParse_timeFormat]
  rfl

theorem parseKey_time_createdAt (t : Nat) :
    parseKey "created_at" (timeFormat t) = some (.timeV t) := by
  rw [parseKey, if_neg (by decide), if_neg (by decide), timeParse_timeFormat]
  rfl

theorem parseKey_title (k : String) : parseKey "title" k = some (.strV k) := by
  rw [parseKey, if_pos rfl]

theorem parseKey_isPinned (b : Bool) : parseKey "is_pinned" (formatBool b) = some (.boolV b) := by
  cases b <;> rfl

theorem mem_sortWhitelist {s : String} (h : s ∈ sortWhitelist) :
    s = "updated_at" ∨ s = "created_at" ∨ s = "title" ∨ s = "is_pinned" := by
  simpa [sortWhitelist] using h

theorem lowerString_whitelist {s : String} (h : s ∈ sortWhitelist) : lowerString s = s := by
  rcases mem_sortWhitelist h with rfl | rfl | rfl | rfl <;> decide

theorem parseKey_deriveCursor {sb : String} (hsb : sb ∈ sortWhitelist) (dir : String)
    (l : Note) : parseKey sb (deriveCursor sb dir l).Key = some (colValue sb l) := by
  rcases mem_sortWhitelist hsb with rfl | rfl | rfl | rfl
  · rw [deriveCursor_updatedAt, colValue_updatedAt]
    exact parseKey_time_updatedAt l.updatedAt
  · rw [deriveCursor_createdAt, colValue_createdAt]
    exact parseKey_time_createdAt l.createdAt
  · rw [deriveCursor_title, colValue_title]
    exact parseKey_title l.title
  · rw [deriveCursor_isPinned, colValue_isPinned]
    exact parseKey_isPinned l.isPinned

theorem deriveCursor_fields_ne {sb : String} (hsb : sb ∈ sortWhitelist) {dir : String}
    (hdir : dir ≠ "") {l : Note} (hid : l.id ≠ "") (htitle : sb = "title" → l.title ≠ "") :
    (deriveCursor sb dir l).Key ≠ "" ∧ (deriveCursor sb dir l).KeyType ≠ "" ∧
    (deriveCursor sb dir l).ID ≠ "" ∧ (deriveCursor sb dir l).SortBy ≠ "" ∧
    (deriveCursor sb dir l).Direction ≠ "" := by
  rcases mem_sortWhitelist hsb with rfl | rfl | rfl | rfl
  · rw [deriveCursor_updatedAt]
    exact ⟨timeFormat_ne_empty _, by show ("time" : String) ≠ ""; decide, hid,
      by show ("updated_at" : String) ≠ ""; decide, hdir⟩
  · rw [deriveCursor_createdAt]
    exact ⟨timeFormat_ne_empty _, by show ("time" : String) ≠ ""; decide, hid,
      by show ("created_at" : String) ≠ ""; decide, hdir⟩
  · rw [deriveCursor_title]
    exact ⟨htitle rfl, by show ("string" : String) ≠ ""; decide, hid,
      by show ("title" : String) ≠ ""; decide, hdir⟩
  · rw [deriveCursor_isPinned]
    refine ⟨?_, by show ("bool" : String) ≠ ""; decide, hid,
      by show ("is_pinned" : String) ≠ ""; decide, hdir⟩
    show formatBool l.isPinned ≠ ""
    cases l.isPinned <;> decide

theorem cursorAfter_deriveCursor (col : String) (desc : Bool) (l n : Note) :
    cursorAfter col (dirOf desc) (colValue col l) l.id n = rowLT col desc l n := by
  cases desc
  · show (ltVal (colValue col l) (colValue col n) ||
      (decide (colValue col n = colValue col l) && strLtB l.id n.id)) = _
    rw [show decide (colValue col n = colValue col l) =
      decide (colValue col l = colValue col n) from decide_eq_decide.mpr eq_comm]
    rfl
  · show (ltVal (colValue col n) (colValue col l) ||
      (decide (colValue col n = colValue col l) && strLtB n.id l.id)) = _
    rw [show decide (colValue col n = colValue col l) =
      decide (colValue col l = colValue col n) from decide_eq_decide.mpr eq_comm]
    rfl

theorem eq_of_perm_of_pairwise_rowLT (col : String) (desc : Bool) :
    ∀ {l1 l2 : List Note}, l1.Perm l2 →
      l1.Pairwise (fun a b => rowLT col desc a b = true) →
      l2.Pairwise (fun a b => rowLT col desc a b = true) → l1 = l2 := by
  intro l1
  induction l1 with
  | nil =>
    intro l2 hp _ _
    exact hp.nil_eq
  | cons a t1 ih =>
    intro l2 hp h1 h2
    cases l2 with
    | nil =>
      exact absurd hp.symm.nil_eq (by simp)
    | cons b t2 =>
      have hab : a = b := by
        by_cases he : a = b
        · exact he
        · have ha2 : a ∈ b :: t2 := hp.mem_iff.mp (by simp)
          have hb1 : b ∈ a :: t1 := hp.mem_iff.mpr (by simp)
          have ha2' : a ∈ t2 := by
            rcases List.mem_cons.mp ha2 with h | h
            · exact absurd h he
            · exact h
          have hb1' : b ∈ t1 := by
            rcases List.mem_cons.mp hb1 with h | h
            · exact absurd h.symm he
            · exact h
          have hlt1 : rowLT col desc a b = true := (List.pairwise_cons.mp h1).1 b hb1'
          have hlt2 : rowLT col desc b a = true := (List.pairwise_cons.mp h2).1 a ha2'
          exact (rowLT_asymm col desc hlt1 hlt2).elim
      subst hab
      rw [ih hp.cons_inv (List.pairwise_cons.mp h1).2 (List.pairwise_cons.mp h2).2]

theorem pairwise_rowLT_of_sorted (col : String) (desc : Bool) {l : List Note}
    (hs : l.Pairwise (fun a b => rowLE col desc a b = true))
    (hn : (l.map Note.id).Nodup) :
    l.Pairwise (fun a b => rowLT col desc a b = true) := by
  have hne : l.Pairwise (fun a b => a.id ≠ b.id) := List.pairwise_map.mp hn
  exact (hs.and hne).imp (fun h => rowLT_of_rowLE_of_ne col desc h.1 h.2)

theorem sortRows_perm (col : String) (desc : Bool) (l : List Note) :
    (sortRows col desc l).Perm l := List.perm_insertionSort _ l

theorem sortRows_sorted (col : String) (desc : Bool) (l : List Note) :
    (sortRows col desc l).Pairwise (fun a b => rowLE col desc a b = true) := by
  haveI : IsTotal Note (fun a b => rowLE col desc a b = true) := ⟨rowLE_total col desc⟩
  haveI : IsTrans Note (fun a b => rowLE col desc a b = true) :=
    ⟨fun _ _ _ => rowLE_trans col desc⟩
  exact List.sorted_insertionSort _ l

theorem sortRows_nodup_ids (col : String) (desc : Bool) {l : List Note}
    (hn : (l.map Note.id).Nodup) : ((sortRows col desc l).map Note.id).Nodup :=
  (((sortRows_perm col desc l).map Note.id).nodup_iff).mpr hn

theorem sortRows_pairwise_lt (col : String) (desc : Bool) {l : List Note}
    (hn : (l.map Note.id).Nodup) :
    (sortRows col desc l).Pairwise (fun a b => rowLT col desc a b = true) :=
  pairwise_rowLT_of_sorted col desc (sortRows_sorted col desc l)
    (sortRows_nodup_ids col desc hn)

theorem sortRows_eq_of_sorted (col : String) (desc : Bool) {l m : List Note}
    (hperm : m.Perm l) (hm : m.Pairwise (fun a b => rowLT col desc a b = true))
    (hn : (l.map Note.id).Nodup) : sortRows col desc l = m :=
  eq_of_perm_of_pairwise_rowLT col desc ((sortRows_perm col desc l).trans hperm.symm)
    (sortRows_pairwise_lt col desc hn) hm

theorem filter_rowLT_middle (col : String) (desc : Bool) :
    ∀ (xs : List Note) (l : Note) (ys : List Note),
      (xs ++ l :: ys).Pairwise (fun a b => rowLT col desc a b = true) →
      (xs ++ l :: ys).filter (fun n => rowLT col desc l n) = ys := by
  intro xs
  induction xs with
  | nil =>
    intro l ys h
    rw [List.nil_append] at h ⊢
    rw [List.filter_cons, if_neg (by rw [rowLT_irrefl col desc l]; exact Bool.false_ne_true)]
    exact List.filter_eq_self.mpr (fun y hy => (List.pairwise_cons.mp h).1 y hy)
  | cons x xs ih =>
    intro l ys h
    rw [List.cons_append] at h ⊢
    have hxl : rowLT col desc x l = true :=
      (List.pairwise_cons.mp h).1 l (by simp)
    have hlx : rowLT col desc l x = false := by
      by_contra hc
      rw [Bool.not_eq_false] at hc
      exact rowLT_asymm col desc hxl hc
    rw [List.filter_cons, if_neg (by rw [hlx]; exact Bool.false_ne_true)]
    exact ih l ys (List.pairwise_cons.mp h).2

theorem dirOf_ne_empty (b : Bool) : dirOf b ≠ "" := by
  cases b <;> decide

theorem deriveCursor_ID (sb dir : String) (l : Note) : (deriveCursor sb dir l).ID = l.id := by
  unfold deriveCursor
  split_ifs <;> rfl

theorem buildPage_fst (ps : Nat) (sb dir : String) (rem : List Note) :
    (buildPage ps sb dir rem).1 = rem.take ps := rfl

theorem buildPage_eq (ps : Nat) (sb dir : String) (rem : List Note) :
    buildPage ps sb dir rem = (rem.take ps,
      if (rem.take ps).length = ps then
        match (rem.take ps).getLast? with
        | some last => EncodePaginationToken (deriveCursor sb dir last)
        | none => ""
      else "") := rfl

theorem ListNotes_empty_token (fts : String → Note → Bool) (rows : List Note)
    (f : ListNotesFilter) :
    ListNotes fts rows { f with pageToken := "" } =
      .ok (buildPage (clampPageSize f.pageSize) (normalizeSortBy f.sortBy) (dirOf f.sortDesc)
        (sortRows (lowerString (normalizeSortBy f.sortBy)) f.sortDesc
          (rows.filter (matchesFilter fts f)))) := rfl

theorem ListNotes_with_cursor (fts : String → Note → Bool) (rows : List Note)
    (f : ListNotesFilter) (tok : String) (c : NotesPagination) (k : SortVal)
    (hne : tok ≠ "") (hdec : DecodePaginationToken tok = .ok c)
    (hpk : parseKey (lowerString (normalizeSortBy f.sortBy)) c.Key = some k) :
    ListNotes fts rows { f with pageToken := tok } =
      .ok (buildPage (clampPageSize f.pageSize) (normalizeSortBy f.sortBy) (dirOf f.sortDesc)
        (sortRows (lowerString (normalizeSortBy f.sortBy)) f.sortDesc
          ((rows.filter (matchesFilter fts f)).filter
            (cursorAfter (lowerString (normalizeSortBy f.sortBy)) (dirOf f.sortDesc) k
              c.ID)))) := by
  unfold ListNotes
  simp only
  rw [if_neg hne, hdec]
  dsimp only
  rw [hpk]
  rfl

theorem collectPages_step (fts : String → Note → Bool) (rows : List Note)
    (f : ListNotesFilter) (fl : Nat) (tok : String) (notes : List Note) (next : String)
    (hcall : ListNotes fts rows { f with pageToken := tok } = .ok (notes, next)) :
    collectPages fts rows f (fl + 1) tok =
      if next = "" then some notes
      else
        match collectPages fts rows f fl next with
        | some more => some (notes ++ more)
        | none => none := by
  simp only [collectPages, hcall]

theorem collectPages_spec (fts : String → Note → Bool) (rows : List Note)
    (f : ListNotesFilter)
    (hsb : normalizeSortBy f.sortBy ∈ sortWhitelist)
    (hids : (rows.map Note.id).Nodup)
    (hid_ne : ∀ n ∈ rows, n.id ≠ "")
    (htitle : normalizeSortBy f.sortBy = "title" → ∀ n ∈ rows, n.title ≠ "") :
    ∀ (fuel : Nat) (rem pre : List Note) (tok : String),
      sortRows (normalizeSortBy f.sortBy) f.sortDesc (rows.filter (matchesFilter fts f)) =
        pre ++ rem →
      rem.length < fuel →
      ListNotes fts rows { f with pageToken := tok } =
        .ok (buildPage (clampPageSize f.pageSize) (normalizeSortBy f.sortBy)
          (dirOf f.sortDesc) rem) →
      collectPages fts rows f fuel tok = some rem := by
  have heff : lowerString (normalizeSortBy f.sortBy) = normalizeSortBy f.sortBy :=
    lowerString_whitelist hsb
  have hbase_ids : ((rows.filter (matchesFilter fts f)).map Note.id).Nodup :=
    List.Nodup.sublist ((List.filter_sublist rows).map Note.id) hids
  intro fuel
  induction fuel with
  | zero =>
    intro rem pre tok hS hlen hcall
    omega
  | succ fl ih =>
    intro rem pre tok hS hlen hcall
    have ps_pos := clampPageSize_pos f.pageSize
    by_cases hfull : (rem.take (clampPageSize f.pageSize)).length = clampPageSize f.pageSize
    · -- full page: a cursor is derived and fed back
      have hts_ne : rem.take (clampPageSize f.pageSize) ≠ [] := by
        intro h0
        rw [h0] at hfull
        simp at hfull
        omega
      obtain ⟨last, hgl, henc⟩ := buildPage_full (clampPageSize f.pageSize) ps_pos
        (normalizeSortBy f.sortBy) (dirOf f.sortDesc) rem
        (by rw [buildPage_fst]; exact hfull)
      rw [buildPage_fst] at hgl
      have hlast_eq : last = (rem.take (clampPageSize f.pageSize)).getLast hts_ne := by
        have h1 := List.getLast?_eq_getLast (rem.take (clampPageSize f.pageSize)) hts_ne
        rw [hgl] at h1
        exact Option.some.inj h1
      have hlast_mem_ts : last ∈ rem.take (clampPageSize f.pageSize) := by
        rw [hlast_eq]
        exact List.getLast_mem hts_ne
      have hlast_mem_S : last ∈ sortRows (normalizeSortBy f.sortBy) f.sortDesc
          (rows.filter (matchesFilter fts f)) := by
        rw [hS]
        exact List.mem_append_right pre (List.take_subset _ rem hlast_mem_ts)
      have hlast_rows : last ∈ rows :=
        (List.mem_filter.mp
          ((sortRows_perm (normalizeSortBy f.sortBy) f.sortDesc _).mem_iff.mp
            hlast_mem_S)).1
      have hfields := deriveCursor_fields_ne hsb (dirOf_ne_empty f.sortDesc)
        (hid_ne last hlast_rows) (fun hcol => htitle hcol last hlast_rows)
      have hdec := decode_encode_roundtrip _ hfields.1 hfields.2.1 hfields.2.2.1
        hfields.2.2.2.1 hfields.2.2.2.2
      have hpk : parseKey (lowerString (normalizeSortBy f.sortBy))
          (deriveCursor (normalizeSortBy f.sortBy) (dirOf f.sortDesc) last).Key =
          some (colValue (normalizeSortBy f.sortBy) last) := by
        rw [heff]
        exact parseKey_deriveCursor hsb (dirOf f.sortDesc) last
      have hcall0 := ListNotes_with_cursor fts rows f _ _ _
        (EncodePaginationToken_ne_empty _) hdec hpk
      rw [heff, deriveCursor_ID] at hcall0
      have hpred : cursorAfter (normalizeSortBy f.sortBy) (dirOf f.sortDesc)
          (colValue (normalizeSortBy f.sortBy) last) last.id =
          rowLT (normalizeSortBy f.sortBy) f.sortDesc last :=
        funext (fun n => cursorAfter_deriveCursor (normalizeSortBy f.sortBy) f.sortDesc last n)
      rw [hpred] at hcall0
      have hSlt := sortRows_pairwise_lt (normalizeSortBy f.sortBy) f.sortDesc hbase_ids
      have hts : rem.take (clampPageSize f.pageSize) =
          (rem.take (clampPageSize f.pageSize)).dropLast ++ [last] := by
        conv_lhs => rw [← List.dropLast_append_getLast hts_ne]
        rw [hlast_eq]
      have hS2 : sortRows (normalizeSortBy f.sortBy) f.sortDesc
          (rows.filter (matchesFilter fts f)) =
          (pre ++ (rem.take (clampPageSize f.pageSize)).dropLast) ++
            (last :: rem.drop (clampPageSize f.pageSize)) := by
        have hsplit : pre ++ rem =
            (pre ++ (rem.take (clampPageSize f.pageSize)).dropLast) ++
              (last :: rem.drop (clampPageSize f.pageSize)) := by
          conv_lhs => rw [← List.take_append_drop (clampPageSize f.pageSize) rem, hts]
          simp [List.append_assoc]
        exact hS.trans hsplit
      have hSlt2 := hSlt
      rw [hS2] at hSlt2
      have hfilter : (sortRows (normalizeSortBy f.sortBy) f.sortDesc
          (rows.filter (matchesFilter fts f))).filter
            (fun n => rowLT (normalizeSortBy f.sortBy) f.sortDesc last n) =
          rem.drop (clampPageSize f.pageSize) := by
        rw [hS2]
        exact filter_rowLT_middle (normalizeSortBy f.sortBy) f.sortDesc _ last _ hSlt2
      have hperm : (rem.drop (clampPageSize f.pageSize)).Perm
          ((rows.filter (matchesFilter fts f)).filter
            (rowLT (normalizeSortBy f.sortBy) f.sortDesc last)) := by
        rw [← hfilter]
        exact List.Perm.filter _ (sortRows_perm (normalizeSortBy f.sortBy) f.sortDesc _)
      have hdrop_sub : (rem.drop (clampPageSize f.pageSize)).Sublist
          (sortRows (normalizeSortBy f.sortBy) f.sortDesc
            (rows.filter (matchesFilter fts f))) := by
        rw [hS2]
        exact ((List.sublist_cons_self last _).trans
          (List.sublist_append_right _ _))
      have hdroplt : (rem.drop (clampPageSize f.pageSize)).Pairwise
          (fun a b => rowLT (normalizeSortBy f.sortBy) f.sortDesc a b = true) :=
        List.Pairwise.sublist hdrop_sub hSlt
      have hfiltered_ids : (((rows.filter (matchesFilter fts f)).filter
          (rowLT (normalizeSortBy f.sortBy) f.sortDesc last)).map Note.id).Nodup :=
        List.Nodup.sublist ((List.filter_sublist _).map Note.id) hbase_ids
      have hsorteq : sortRows (normalizeSortBy f.sortBy) f.sortDesc
          ((rows.filter (matchesFilter fts f)).filter
            (rowLT (normalizeSortBy f.sortBy) f.sortDesc last)) =
          rem.drop (clampPageSize f.pageSize) :=
        sortRows_eq_of_sorted (normalizeSortBy f.sortBy) f.sortDesc hperm hdroplt
          hfiltered_ids
      rw [hsorteq] at hcall0
      have hcall2 : ListNotes fts rows { f with pageToken := tok } =
          .ok (rem.take (clampPageSize f.pageSize),
            EncodePaginationToken
              (deriveCursor (normalizeSortBy f.sortBy) (dirOf f.sortDesc) last)) := by
        rw [hcall, ← henc, ← buildPage_fst (clampPageSize f.pageSize)
          (normalizeSortBy f.sortBy) (dirOf f.sortDesc) rem]
      rw [collectPages_step fts rows f fl tok _ _ hcall2,
        if_neg (EncodePaginationToken_ne_empty _),
        ih (rem.drop (clampPageSize f.pageSize)) (pre ++ rem.take (clampPageSize f.pageSize))
          _ (by rw [List.append_assoc, List.take_append_drop]; exact hS)
          (by
            rw [List.length_take] at hfull
            rw [List.length_drop]
            omega)
          hcall0]
      show some (rem.take (clampPageSize f.pageSize) ++ rem.drop (clampPageSize f.pageSize)) =
        some rem
      rw [List.take_append_drop]
    · -- short page: no cursor, the run ends with the remaining rows
      have hshort : rem.length < clampPageSize f.pageSize := by
        rw [List.length_take] at hfull
        omega
      have htake : rem.take (clampPageSize f.pageSize) = rem :=
        List.take_of_length_le (by omega)
      have hcall2 : ListNotes fts rows { f with pageToken := tok } = .ok (rem, "") := by
        rw [hcall, buildPage_eq, if_neg hfull, htake]
      rw [collectPages_step fts rows f fl tok _ _ hcall2, if_pos rfl]

theorem keyset_pagination_exactly_once (fts : String → Note → Bool) (rows : List Note)
    (f : ListNotesFilter) (fuel : Nat)
    (hsb : normalizeSortBy f.sortBy ∈ sortWhitelist)
    (hids : (rows.map Note.id).Nodup)
    (hid_ne : ∀ n ∈ rows, n.id ≠ "")
    (htitle : normalizeSortBy f.sortBy = "title" → ∀ n ∈ rows, n.title ≠ "")
    (hfuel : rows.length < fuel) :
    ∃ out, collectPages fts rows f fuel "" = some out ∧
      out.Perm (rows.filter (matchesFilter fts f)) ∧
      out.Pairwise (fun a b => rowLT (normalizeSortBy f.sortBy) f.sortDesc a b = true) := by
  have heff : lowerString (normalizeSortBy f.sortBy) = normalizeSortBy f.sortBy :=
    lowerString_whitelist hsb
  have hbase_ids : ((rows.filter (matchesFilter fts f)).map Note.id).Nodup :=
    List.Nodup.sublist ((List.filter_sublist rows).map Note.id) hids
  refine ⟨sortRows (normalizeSortBy f.sortBy) f.sortDesc (rows.filter (matchesFilter fts f)),
    ?_, sortRows_perm _ _ _, sortRows_pairwise_lt _ _ hbase_ids⟩
  have hcall := ListNotes_empty_token fts rows f
  rw [heff] at hcall
  apply collectPages_spec fts rows f hsb hids hid_ne htitle fuel _ [] ""
    (List.nil_append _).symm _ hcall
  have h1 := (sortRows_perm (normalizeSortBy f.sortBy) f.sortDesc
    (rows.filter (matchesFilter fts f))).length_eq
  have h2 := List.length_filter_le (matchesFilter fts f) rows
  omega

end NotesGrpc
